import Mathlib

/-!
Shallow embedding of the `sakura` arena tree
(`src/shared/crates/sakura/src/{tree,node,iterators,error,behaviors}.rs`).

Modelling conventions:
* `NodeId.index` (a Rust `u32` used as a `usize` index; indices stay far below
  `2^32` in every statement here, so overflow plays no role) is a `Nat`.
* Rust `Vec` is a `List`; `push` appends at the end, `pop` takes the last
  element, `swap_remove` swaps with the last element and drops it.
* Fallible code runs in `TRes α = Except TreeFail α`.  `TreeFail.invalid`
  models `Err(NodeIdError::NodeIdNoLongerValid)`, `TreeFail.panicked` models a
  Rust panic (a failed `assert!` or `.expect`/`.unwrap`), and `TreeFail.fuel`
  is a modelling artefact for out-of-fuel recursion (Rust uses native
  recursion there; `fuel` never corresponds to a Rust behaviour and all
  theorems treat it separately).
* Mutation is explicit state passing: `&mut self` methods take and return the
  `Tree`.
-/

namespace Sakura

/-- NodeId from `lib.rs`: an index into the tree's storage vector. -/
structure NodeId where
  index : Nat
deriving DecidableEq, Repr

/-- Node from `node.rs`: user data, optional parent handle, ordered children. -/
structure Node (T : Type) where
  data : T
  parent : Option NodeId
  children : List NodeId
deriving DecidableEq, Repr

/-- Tree from `tree.rs`: root handle, dense slot storage, free-slot list. -/
structure Tree (T : Type) where
  root : Option NodeId
  nodes : List (Option (Node T))
  free_ids : List NodeId
deriving DecidableEq, Repr

/-- Failure outcomes of the embedded operations. -/
inductive TreeFail
  | panicked
  | invalid
  | fuel
deriving DecidableEq, Repr

/-- Result monad of the embedding. -/
abbrev TRes (α : Type) := Except TreeFail α

/-- Rust `.expect(..)` / `.unwrap()` on a `Result`: an error becomes a panic. -/
def expectOk {α : Type} : TRes α → TRes α
  | .ok a => .ok a
  | .error .fuel => .error .fuel
  | .error _ => .error .panicked

/-- Rust `.ok()` on a `Result`: `Err` becomes `None`; a panic still unwinds. -/
def resultOk {α : Type} : TRes α → TRes (Option α)
  | .ok a => .ok (some a)
  | .error .invalid => .ok none
  | .error e => .error e

variable {T : Type}

/-- Rust `Vec::swap_remove`: returns the removed element and the rest of the
vector (last element moved into the hole); panics when out of bounds. -/
def swapRemove (l : List α) (i : Nat) : TRes (α × List α) :=
  match l.get? i, l.getLast? with
  | some x, some last => .ok (x, (l.set i last).dropLast)
  | _, _ => .error .panicked

/-- Tree::is_valid_node_id. The `assert!` uses `idx <= self.nodes.len()`, and
the follow-up check is `self.nodes.get(idx).is_none()`, which is true only
when `idx` is out of range of the storage vector. -/
def isValidNodeId (t : Tree T) (id : NodeId) : TRes Unit :=
  if id.index ≤ t.nodes.length then
    match t.nodes.get? id.index with
    | none => .error .invalid
    | some _ => .ok ()
  else .error .panicked

/-- Tree::get (Tree::get_mut performs the identical checks): the `?` on
`is_valid_node_id`, then `.expect` on the slot lookup, then
`ok_or(NodeIdNoLongerValid)` on the slot content. -/
def getNode (t : Tree T) (id : NodeId) : TRes (Node T) :=
  match isValidNodeId t id with
  | .error e => .error e
  | .ok () =>
    match t.nodes.get? id.index with
    | none => .error .panicked
    | some none => .error .invalid
    | some (some nd) => .ok nd

/-- Writing a node back through a `&mut Node` obtained from `Tree::get_mut`. -/
def setNodeAt (t : Tree T) (i : Nat) (nd : Node T) : Tree T :=
  { t with nodes := t.nodes.set i (some nd) }

/-- Access through `Tree::get_mut` followed by an in-place update of the node. -/
def modifyNode (t : Tree T) (id : NodeId) (f : Node T → Node T) : TRes (Tree T) :=
  match getNode t id with
  | .error e => .error e
  | .ok nd => .ok (setNodeAt t id.index (f nd))

/-- Tree::set_as_parent_and_child: `add_child` on the parent (push at the end
of `children`), then `set_parent` on the child; both accesses `.expect`. -/
def setAsParentAndChild (t : Tree T) (parentId childId : NodeId) : TRes (Tree T) :=
  match expectOk (modifyNode t parentId
      (fun nd => { nd with children := nd.children ++ [childId] })) with
  | .error e => .error e
  | .ok t1 =>
    expectOk (modifyNode t1 childId (fun nd => { nd with parent := some parentId }))

/-- Tree::detach_from_parent: `children_mut().retain(|c| *c != *node_id)`. -/
def detachFromParent (t : Tree T) (parentId nodeId : NodeId) : TRes (Tree T) :=
  expectOk (modifyNode t parentId
    (fun nd => { nd with children := nd.children.filter (fun c => c ≠ nodeId) }))

/-- Tree::set_parent (via `get_mut(..).expect(..)`). -/
def setParentOf (t : Tree T) (id : NodeId) (p : Option NodeId) : TRes (Tree T) :=
  expectOk (modifyNode t id (fun nd => { nd with parent := p }))

/-- Tree::set_parent_of_children: iterate over a clone of the children list,
setting each child's parent. `clear_parent_of_children` passes `None`. -/
def setParentOfChildren (t : Tree T) (id : NodeId) (newParent : Option NodeId) :
    TRes (Tree T) :=
  match expectOk (getNode t id) with
  | .error e => .error e
  | .ok nd => nd.children.foldlM (fun acc c => setParentOf acc c newParent) t

/-- Tree::insert_new_node: reuse the most recently freed slot when the free
list is non-empty (push the new node, then `swap_remove` it into the slot),
otherwise push a fresh slot. -/
def insertNewNode (t : Tree T) (newNode : Node T) : TRes (NodeId × Tree T) :=
  if t.free_ids.isEmpty then
    .ok (⟨t.nodes.length⟩, { t with nodes := t.nodes ++ [some newNode] })
  else
    match t.free_ids.getLast? with
    | none => .error .panicked
    | some newId =>
      match swapRemove (t.nodes ++ [some newNode]) newId.index with
      | .error e => .error e
      | .ok (_, nodes') =>
        .ok (newId, { t with nodes := nodes', free_ids := t.free_ids.dropLast })

/-- Tree::take_node: push `None`, `swap_remove` the slot (tombstoning it in
place), push the handle on the free list; `.expect` the removed slot. -/
def takeNode (t : Tree T) (id : NodeId) : TRes (Node T × Tree T) :=
  match swapRemove (t.nodes ++ [none]) id.index with
  | .error e => .error e
  | .ok (none, _) => .error .panicked
  | .ok (some nd, nodes') =>
    .ok (nd, { t with nodes := nodes', free_ids := t.free_ids ++ [id] })

/-- Tree::remove_node_internal: clear the root pointer when removing the root,
take the node out of storage, drop it from its parent's child list, and return
it with its own links cleared. -/
def removeNodeInternal (t : Tree T) (id : NodeId) : TRes (Node T × Tree T) :=
  match takeNode (if t.root = some id then { t with root := none } else t) id with
  | .error e => .error e
  | .ok (nd, t1) =>
    match (match nd.parent with
           | some pid =>
             expectOk (modifyNode t1 pid
               (fun p => { p with children := p.children.filter (fun c => c ≠ id) }))
           | none => .ok t1) with
    | .error e => .error e
    | .ok t2 => .ok ({ nd with children := [], parent := none }, t2)

/-- Tree::remove_node_lift_children. The parent, and then a clone of the
children list, are read up front; each child is re-attached to the parent in
order before the node itself is removed. -/
def removeNodeLiftChildren (t : Tree T) (id : NodeId) : TRes (Node T × Tree T) :=
  match expectOk (getNode t id) with
  | .error e => .error e
  | .ok nd =>
    match nd.parent with
    | some parentId =>
      match expectOk (getNode t id) with
      | .error e => .error e
      | .ok nd2 =>
        match nd2.children.foldlM
            (fun acc c => setAsParentAndChild acc parentId c) t with
        | .error e => .error e
        | .ok t1 => removeNodeInternal t1 id
    | none =>
      match setParentOfChildren t id none with
      | .error e => .error e
      | .ok t1 => removeNodeInternal t1 id

/-- Tree::remove_node_orphan_children. -/
def removeNodeOrphanChildren (t : Tree T) (id : NodeId) : TRes (Node T × Tree T) :=
  match setParentOfChildren t id none with
  | .error e => .error e
  | .ok t1 => removeNodeInternal t1 id

/-- The `for child in children` loop inside `remove_node_drop_children`,
abstracted over the recursive removal call. -/
def dropChildrenList (rm : Tree T → NodeId → TRes (Node T × Tree T)) :
    Tree T → List NodeId → TRes (Tree T)
  | t, [] => .ok t
  | t, c :: cs =>
    match rm t c with
    | .error e => .error e
    | .ok (_, t') => dropChildrenList rm t' cs

/-- Tree::remove_node_drop_children: `take_children` the node (clearing its
stored child list), recursively drop each child's subtree, then remove the
node itself.  Rust uses native recursion; the embedding adds fuel. -/
def removeNodeDropChildren : Nat → Tree T → NodeId → TRes (Node T × Tree T)
  | 0 => fun _ _ => .error .fuel
  | fuel+1 => fun t id =>
    match expectOk (getNode t id) with
    | .error e => .error e
    | .ok nd =>
      match dropChildrenList (removeNodeDropChildren fuel)
          (setNodeAt t id.index { nd with children := [] }) nd.children with
      | .error e => .error e
      | .ok t2 => removeNodeInternal t2 id

/-- RemoveBehavior from `behaviors.rs`. -/
inductive RemoveBehavior
  | dropChildren
  | liftChildren
  | orphanChildren
deriving DecidableEq, Repr

/-- Tree::remove_node: validity check, then dispatch on the behavior. -/
def Tree.removeNode (fuel : Nat) (t : Tree T) (id : NodeId) (b : RemoveBehavior) :
    TRes (Node T × Tree T) :=
  match isValidNodeId t id with
  | .error e => .error e
  | .ok () =>
    match b with
    | .dropChildren => removeNodeDropChildren fuel t id
    | .liftChildren => removeNodeLiftChildren t id
    | .orphanChildren => removeNodeOrphanChildren t id

/-- InsertBehavior from `behaviors.rs`. -/
inductive InsertBehavior
  | asRoot
  | underNode (parentId : NodeId)
deriving DecidableEq, Repr

/-- Tree::insert_with_parent. -/
def insertWithParent (t : Tree T) (child : Node T) (parentId : NodeId) :
    TRes (NodeId × Tree T) :=
  match insertNewNode t child with
  | .error e => .error e
  | .ok (newId, t1) =>
    match setAsParentAndChild t1 parentId newId with
    | .error e => .error e
    | .ok t2 => .ok (newId, t2)

/-- Tree::set_root: insert the node, attach the old root (if any) as its
first child, and point the root at the new node. -/
def setRoot (t : Tree T) (newRoot : Node T) : TRes (NodeId × Tree T) :=
  match insertNewNode t newRoot with
  | .error e => .error e
  | .ok (newId, t1) =>
    match (match t1.root with
           | some curRoot => setAsParentAndChild t1 newId curRoot
           | none => .ok t1) with
    | .error e => .error e
    | .ok t2 => .ok (newId, { t2 with root := some newId })

/-- Tree::insert: `AsRoot` goes straight to `set_root`; `UnderNode` checks the
parent handle first. -/
def Tree.insert (t : Tree T) (node : Node T) (b : InsertBehavior) :
    TRes (NodeId × Tree T) :=
  match b with
  | .asRoot => setRoot t node
  | .underNode pid =>
    match isValidNodeId t pid with
    | .error e => .error e
    | .ok () => insertWithParent t node pid

/-- Tree::find_subtree_root_between_ids: walk up the parent chain from
`lower_id` looking for a node whose parent is `upper_id`; each step goes
through `self.get(..).unwrap()`. Rust recursion, fuelled here. -/
def findSubtreeRootBetweenIds : Nat → Tree T → NodeId → NodeId → TRes (Option NodeId)
  | 0, _, _, _ => .error .fuel
  | fuel+1, t, lowerId, upperId =>
    match expectOk (getNode t lowerId) with
    | .error e => .error e
    | .ok nd =>
      match nd.parent with
      | some lowerParent =>
        if lowerParent = upperId then .ok (some lowerId)
        else findSubtreeRootBetweenIds fuel t lowerParent upperId
      | none => .ok none

/-- Tree::move_node_to_parent. -/
def moveNodeToParent (fuel : Nat) (t : Tree T) (nodeId parentId : NodeId) :
    TRes (Tree T) :=
  match findSubtreeRootBetweenIds fuel t parentId nodeId with
  | .error e => .error e
  | .ok sub =>
    match ((match sub with
      | some subtreeRootId =>
        if t.root = some nodeId then
          match detachFromParent t nodeId subtreeRootId with
          | .error e => .error e
          | .ok ta =>
            match setParentOf ta subtreeRootId none with
            | .error e => .error e
            | .ok tb => .ok { tb with root := some subtreeRootId }
        else
          match expectOk (getNode t nodeId) with
          | .error e => .error e
          | .ok nd =>
            match nd.parent with
            | some oldParent =>
              match detachFromParent t oldParent nodeId with
              | .error e => .error e
              | .ok ta =>
                match setAsParentAndChild ta oldParent subtreeRootId with
                | .error e => .error e
                | .ok tb => detachFromParent tb nodeId subtreeRootId
            | none =>
              match setParentOf t subtreeRootId none with
              | .error e => .error e
              | .ok ta => detachFromParent ta nodeId subtreeRootId
      | none =>
        match expectOk (getNode t nodeId) with
        | .error e => .error e
        | .ok nd =>
          match nd.parent with
          | some oldParent => detachFromParent t oldParent nodeId
          | none => .ok t) : TRes (Tree T)) with
    | .error e => .error e
    | .ok t1 => setAsParentAndChild t1 parentId nodeId

/-- Tree::move_node_to_root: remember the old root, detach the node, make it
the root, then move the old root under it via `move_node_to_parent`. -/
def moveNodeToRoot (fuel : Nat) (t : Tree T) (nodeId : NodeId) : TRes (Tree T) :=
  match expectOk (getNode t nodeId) with
  | .error e => .error e
  | .ok nd =>
    match (match nd.parent with
           | some pid => detachFromParent t pid nodeId
           | none => .ok t) with
    | .error e => .error e
    | .ok t1 =>
      match setParentOf t1 nodeId none with
      | .error e => .error e
      | .ok t2 =>
        match t.root with
        | some oldRootId =>
          moveNodeToParent fuel { t2 with root := some nodeId } oldRootId nodeId
        | none => .ok { t2 with root := some nodeId }

/-- MoveBehavior from `behaviors.rs`. -/
inductive MoveBehavior
  | toRoot
  | toParent (parentId : NodeId)
deriving DecidableEq, Repr

/-- Tree::move_node: validity check, then dispatch on the behavior. -/
def Tree.moveNode (fuel : Nat) (t : Tree T) (nodeId : NodeId) (b : MoveBehavior) :
    TRes (Tree T) :=
  match isValidNodeId t nodeId with
  | .error e => .error e
  | .ok () =>
    match b with
    | .toRoot => moveNodeToRoot fuel t nodeId
    | .toParent pid => moveNodeToParent fuel t nodeId pid

/-! Traversal producers (`iterators.rs`).  Each producer is embedded as its
iterator state plus a step function; a step yields `some (item, state')` for
`Some(item)` from `next`, `none` when `next` returns `None` (the consumer
stops there).  The constructors on `Tree` perform the validity check and
return the initial state. -/

/-- State of `PreOrderTraversalIds` (and `PreOrderTraversal`): the pending
deque, front first. -/
abbrev PreOrderStack := List NodeId

/-- One `next` call of `PreOrderTraversalIds`: pop the front, `get` it
(`.ok()` drops an invalid handle and ends the iteration), prepend its
children, and yield the id. -/
def preOrderIdsStep (t : Tree T) (stack : PreOrderStack) :
    TRes (Option (NodeId × PreOrderStack)) :=
  match stack with
  | [] => .ok none
  | id :: rest =>
    match resultOk (getNode t id) with
    | .error e => .error e
    | .ok (some nd) => .ok (some (id, nd.children ++ rest))
    | .ok none => .ok none

/-- One `next` call of `PreOrderTraversal` (node flavour). -/
def preOrderStep (t : Tree T) (stack : PreOrderStack) :
    TRes (Option (Node T × PreOrderStack)) :=
  match stack with
  | [] => .ok none
  | id :: rest =>
    match resultOk (getNode t id) with
    | .error e => .error e
    | .ok (some nd) => .ok (some (nd, nd.children ++ rest))
    | .ok none => .ok none

/-- One `next` call of `Ancestors`: take the current id, `get` it, read its
parent, store the parent as the new current id and yield the parent node. -/
def ancestorsStep (t : Tree T) (st : Option NodeId) :
    TRes (Option (Node T × Option NodeId)) :=
  match st with
  | none => .ok none
  | some cur =>
    match resultOk (getNode t cur) with
    | .error e => .error e
    | .ok none => .ok none
    | .ok (some nd) =>
      match nd.parent with
      | none => .ok none
      | some pid =>
        match resultOk (getNode t pid) with
        | .error e => .error e
        | .ok none => .ok none
        | .ok (some pnd) => .ok (some (pnd, some pid))

/-- One `next` call of `AncestorsIds`: like `Ancestors` but the parent id is
yielded without a second lookup. -/
def ancestorIdsStep (t : Tree T) (st : Option NodeId) :
    TRes (Option (NodeId × Option NodeId)) :=
  match st with
  | none => .ok none
  | some cur =>
    match resultOk (getNode t cur) with
    | .error e => .error e
    | .ok none => .ok none
    | .ok (some nd) =>
      match nd.parent with
      | none => .ok none
      | some pid => .ok (some (pid, some pid))

/-- Tree::traverse_pre_order_ids: validity check, then an iterator whose deque
holds exactly the starting handle. -/
def Tree.traversePreOrderIds (t : Tree T) (id : NodeId) : TRes PreOrderStack :=
  match isValidNodeId t id with
  | .error e => .error e
  | .ok () => .ok [id]

/-- Tree::traverse_pre_order. -/
def Tree.traversePreOrder (t : Tree T) (id : NodeId) : TRes PreOrderStack :=
  match isValidNodeId t id with
  | .error e => .error e
  | .ok () => .ok [id]

/-- Tree::ancestors. -/
def Tree.ancestors (t : Tree T) (id : NodeId) : TRes (Option NodeId) :=
  match isValidNodeId t id with
  | .error e => .error e
  | .ok () => .ok (some id)

/-- Tree::ancestor_ids. -/
def Tree.ancestorIds (t : Tree T) (id : NodeId) : TRes (Option NodeId) :=
  match isValidNodeId t id with
  | .error e => .error e
  | .ok () => .ok (some id)

/-- Proposition: running `PreOrderTraversalIds` from deque `s` until `next`
returns `None` yields exactly the id sequence `l`. -/
inductive PreIdsYields (t : Tree T) : PreOrderStack → List NodeId → Prop
  | done {s} : preOrderIdsStep t s = .ok none → PreIdsYields t s []
  | step {s a s' l} : preOrderIdsStep t s = .ok (some (a, s')) →
      PreIdsYields t s' l → PreIdsYields t s (a :: l)

/-- Proposition: running `PreOrderTraversal` from deque `s` yields exactly the
node sequence `l`. -/
inductive PreNodesYields (t : Tree T) : PreOrderStack → List (Node T) → Prop
  | done {s} : preOrderStep t s = .ok none → PreNodesYields t s []
  | step {s a s' l} : preOrderStep t s = .ok (some (a, s')) →
      PreNodesYields t s' l → PreNodesYields t s (a :: l)

/-- Proposition: running `Ancestors` from state `st` yields exactly `l`. -/
inductive AncestorsYields (t : Tree T) : Option NodeId → List (Node T) → Prop
  | done {s} : ancestorsStep t s = .ok none → AncestorsYields t s []
  | step {s a s' l} : ancestorsStep t s = .ok (some (a, s')) →
      AncestorsYields t s' l → AncestorsYields t s (a :: l)

/-- Proposition: running `AncestorsIds` from state `st` yields exactly `l`. -/
inductive AncestorIdsYields (t : Tree T) : Option NodeId → List NodeId → Prop
  | done {s} : ancestorIdsStep t s = .ok none → AncestorIdsYields t s []
  | step {s a s' l} : ancestorIdsStep t s = .ok (some (a, s')) →
      AncestorIdsYields t s' l → AncestorIdsYields t s (a :: l)

/-- Proposition: `l` is the concatenation of the depth-first pre-order
listings of the subtrees rooted at `ids`, left to right — each root first
(it must be live), then its children's subtrees in stored order, then the
remaining roots.  `DfsForest t [h] l` therefore says that `l` is the
pre-order listing of the subtree rooted at `h`; this is the
specification-side description of the pre-order sequence. -/
inductive DfsForest (t : Tree T) : List NodeId → List NodeId → Prop
  | nil : DfsForest t [] []
  | cons {id : NodeId} {nd : Node T} {ids l₁ l₂ : List NodeId} :
      getNode t id = .ok nd → DfsForest t nd.children l₁ → DfsForest t ids l₂ →
      DfsForest t (id :: ids) (id :: (l₁ ++ l₂))

/-! Tree equality (`impl PartialEq for Tree`, `tree.rs`, and
`impl PartialEq for Node`, `node.rs`: nodes compare by `data` only). -/

/-- The live slots of the storage, paired with their indices in increasing
index order (the `enumerate().filter_map(..)` in `PartialEq for Tree`). -/
def liveEnum (t : Tree T) : List (Nat × Node T) :=
  t.nodes.enum.filterMap (fun p => p.2.map (fun nd => (p.1, nd)))

/-- The parent comparison data in `PartialEq for Tree`:
`node.parent.as_ref().and_then(|x| self.get(x).ok())`, compared through
`Node`'s data-only equality (so only the parent's data matters). -/
def parentDataOf (t : Tree T) (nd : Node T) : TRes (Option T) :=
  match nd.parent with
  | none => .ok none
  | some pid =>
    match resultOk (getNode t pid) with
    | .error e => .error e
    | .ok p => .ok (p.map Node.data)

/-- The pair loop of `PartialEq for Tree`: both parents are fetched, then the
pair is rejected when the indices, the data, or the parent data differ. -/
def treeEqPairs [DecidableEq T] (t1 t2 : Tree T) :
    List ((Nat × Node T) × (Nat × Node T)) → TRes Bool
  | [] => .ok true
  | (p, q) :: rest =>
    match parentDataOf t1 p.2 with
    | .error e => .error e
    | .ok pd1 =>
      match parentDataOf t2 q.2 with
      | .error e => .error e
      | .ok pd2 =>
        if p.1 ≠ q.1 ∨ p.2.data ≠ q.2.data ∨ pd1 ≠ pd2 then .ok false
        else treeEqPairs t1 t2 rest

/-- PartialEq for Tree: live-node counts first, then the zipped pair loop. -/
def treeEq [DecidableEq T] (t1 t2 : Tree T) : TRes Bool :=
  if t1.nodes.countP Option.isSome ≠ t2.nodes.countP Option.isSome then .ok false
  else treeEqPairs t1 t2 ((liveEnum t1).zip (liveEnum t2))

/-- Pure lookup of a live node (specification side): `some` exactly when the
slot is in bounds and not tombstoned. -/
def getNodeOpt (t : Tree T) (id : NodeId) : Option (Node T) :=
  (t.nodes.get? id.index).join

/-- Modelled from the spec: the data of a node's parent, compared "by node
data, not by handle"; `none` when there is no (live) parent. -/
def parentDataSpec (t : Tree T) (nd : Node T) : Option T :=
  nd.parent.bind (fun pid => (getNodeOpt t pid).map Node.data)

/-- Modelled from the spec (§8): two trees are equal iff they have the same
number of live nodes and, pairing the live slots of each tree in increasing
index order, each pair sits at the same index, holds equal data, and has
parents with equal data. -/
def TreeEqSpec (t1 t2 : Tree T) : Prop :=
  (liveEnum t1).length = (liveEnum t2).length ∧
  ∀ pr ∈ (liveEnum t1).zip (liveEnum t2),
    pr.1.1 = pr.2.1 ∧ pr.1.2.data = pr.2.2.data ∧
    parentDataSpec t1 pr.1.2 = parentDataSpec t2 pr.2.2

/-! Observation helpers used only to state theorems. -/

/-- Children of the node at `id`, read through `Tree::get`. -/
def childrenAt (t : Tree T) (id : NodeId) : TRes (List NodeId) :=
  (getNode t id).map Node.children

/-- Parent of the node at `id`, read through `Tree::get`. -/
def parentAt (t : Tree T) (id : NodeId) : TRes (Option NodeId) :=
  (getNode t id).map Node.parent

/-- Data of the node at `id`, read through `Tree::get`. -/
def dataAt (t : Tree T) (id : NodeId) : TRes T :=
  (getNode t id).map Node.data

/-- Raw storage slot at `id` (no validity check): `some none` is an in-bounds
tombstone, `none` is out of bounds. -/
def slotAt (t : Tree T) (id : NodeId) : Option (Option (Node T)) :=
  t.nodes.get? id.index

/-! Concrete trees used by counterexamples and witnesses.  All of them are
reachable through the public API from `Tree::new()`. -/

/-- Tree with root `0` (data 0) and its child `1` (data 1). -/
def pairTree : Tree Nat :=
  { root := some ⟨0⟩,
    nodes := [some ⟨0, none, [⟨1⟩]⟩, some ⟨1, some ⟨0⟩, []⟩],
    free_ids := [] }

/-- Result of `pairTree.remove_node(1, LiftChildren)`: slot 1 is tombstoned
and on the free list. -/
def removedPairTree : Tree Nat :=
  { root := some ⟨0⟩,
    nodes := [some ⟨0, none, []⟩, none],
    free_ids := [⟨1⟩] }

/-- Tree holding a single root node with data 0. -/
def singleTree : Tree Nat :=
  { root := some ⟨0⟩, nodes := [some ⟨0, none, []⟩], free_ids := [] }

/-- Empty tree (`Tree::new()`). -/
def emptyTree : Tree Nat :=
  { root := none, nodes := [], free_ids := [] }

/-- Result of `singleTree.move_node(&0, ToRoot)`: the lone root has become
its own parent and its own child. -/
def cycledTree : Tree Nat :=
  { root := some ⟨0⟩, nodes := [some ⟨0, some ⟨0⟩, [⟨0⟩]⟩], free_ids := [] }

/-- Result of `removedPairTree.insert(Node::new(2), UnderNode(&1))`: the new
node reuses slot 1 and is wired up as its own parent and child. -/
def aliasedTree : Tree Nat :=
  { root := some ⟨0⟩,
    nodes := [some ⟨0, none, []⟩, some ⟨2, some ⟨1⟩, [⟨1⟩]⟩],
    free_ids := [] }

/-- Result of inserting `Node::new(7)` as root into `removedPairTree`: the
freed slot 1 is reused for the new root. -/
def reusedTree : Tree Nat :=
  { root := some ⟨1⟩,
    nodes := [some ⟨0, some ⟨1⟩, []⟩, some ⟨7, none, [⟨0⟩]⟩],
    free_ids := [] }

/-- Four-node tree: root `0` with child `1`; `1` has children `2` and `3`. -/
def chainTree : Tree Nat :=
  { root := some ⟨0⟩,
    nodes := [some ⟨0, none, [⟨1⟩]⟩, some ⟨1, some ⟨0⟩, [⟨2⟩, ⟨3⟩]⟩,
              some ⟨2, some ⟨1⟩, []⟩, some ⟨3, some ⟨1⟩, []⟩],
    free_ids := [] }

/-- `chainTree` after `remove_node(1, LiftChildren)`: slot 1 is tombstoned and
nodes 2 and 3 hang off the root. -/
def liftedChainTree : Tree Nat :=
  { root := some ⟨0⟩,
    nodes := [some ⟨0, none, [⟨2⟩, ⟨3⟩]⟩, none,
              some ⟨2, some ⟨0⟩, []⟩, some ⟨3, some ⟨0⟩, []⟩],
    free_ids := [⟨1⟩] }

/-- `chainTree` after `move_node(1, ToParent(2))`: node 2 (the subtree root on
the path from 2 up to 1) is promoted to child of the old parent 0, and node 1
hangs under node 2. -/
def movedDownChainTree : Tree Nat :=
  { root := some ⟨0⟩,
    nodes := [some ⟨0, none, [⟨2⟩]⟩, some ⟨1, some ⟨2⟩, [⟨3⟩]⟩,
              some ⟨2, some ⟨0⟩, [⟨1⟩]⟩, some ⟨3, some ⟨1⟩, []⟩],
    free_ids := [] }

/-- `chainTree` after `move_node(0, ToParent(3))`: the old root 0 moves under
node 3 and node 1 (the subtree root between 3 and 0) becomes the tree root. -/
def rootMovedChainTree : Tree Nat :=
  { root := some ⟨1⟩,
    nodes := [some ⟨0, some ⟨3⟩, []⟩, some ⟨1, none, [⟨2⟩, ⟨3⟩]⟩,
              some ⟨2, some ⟨1⟩, []⟩, some ⟨3, some ⟨1⟩, [⟨0⟩]⟩],
    free_ids := [] }

/-- Tree with the same live nodes as `pairTree` but an extra tombstoned slot
and a non-empty free list. -/
def paddedPairTree : Tree Nat :=
  { root := some ⟨0⟩,
    nodes := [some ⟨0, none, [⟨1⟩]⟩, some ⟨1, some ⟨0⟩, []⟩, none],
    free_ids := [⟨2⟩] }

/-! Basic lemmas about the embedded primitives. -/

@[simp]
theorem tbind_ok (a : α) (f : α → TRes β) : (Except.ok a >>= f) = f a := rfl

@[simp]
theorem tbind_error (e : TreeFail) (f : α → TRes β) :
    (Except.error e >>= f : TRes β) = .error e := rfl

theorem slot_lt_length {t : Tree T} {id : NodeId} {s} (h : slotAt t id = some s) :
    id.index < t.nodes.length :=
  (List.get?_eq_some.mp h).1

theorem isValidNodeId_ok_of_slot {t : Tree T} {id : NodeId} {s}
    (h : slotAt t id = some s) : isValidNodeId t id = .ok () := by
  have hlt := slot_lt_length h
  unfold isValidNodeId
  rw [if_pos (Nat.le_of_lt hlt)]
  rw [slotAt] at h
  rw [h]

theorem expectOk_ok_inv {α} {e : TRes α} {a} (h : expectOk e = .ok a) : e = .ok a := by
  cases e with
  | ok b => simpa [expectOk] using h
  | error err => cases err <;> simp [expectOk] at h

theorem getNode_eq_cases (t : Tree T) (j : NodeId) :
    getNode t j =
      match t.nodes.get? j.index with
      | some (some nd) => .ok nd
      | some none => .error .invalid
      | none =>
        if j.index ≤ t.nodes.length then .error .invalid else .error .panicked := by
  unfold getNode isValidNodeId
  rcases hs : t.nodes.get? j.index with _ | s
  · by_cases hc : j.index ≤ t.nodes.length
    · simp [hs, hc]
    · simp [hs, hc]
  · have hlt : j.index < t.nodes.length := (List.get?_eq_some.mp hs).1
    rcases s with _ | nd
    · simp [hs, Nat.le_of_lt hlt]
    · simp [hs, Nat.le_of_lt hlt]

theorem getNode_of_slot_live {t : Tree T} {id : NodeId} {nd}
    (h : slotAt t id = some (some nd)) : getNode t id = .ok nd := by
  have h' : t.nodes.get? id.index = some (some nd) := h
  rw [getNode_eq_cases, h']

theorem getNode_of_slot_tombstone {t : Tree T} {id : NodeId}
    (h : slotAt t id = some none) : getNode t id = .error .invalid := by
  have h' : t.nodes.get? id.index = some none := h
  rw [getNode_eq_cases, h']

theorem getNode_ok_slot {t : Tree T} {id : NodeId} {nd}
    (h : getNode t id = .ok nd) : slotAt t id = some (some nd) := by
  rw [getNode_eq_cases] at h
  show t.nodes.get? id.index = some (some nd)
  rcases hs : t.nodes.get? id.index with _ | s
  · rw [hs] at h
    by_cases hc : id.index ≤ t.nodes.length <;> simp [hc] at h
  · rcases s with _ | nd'
    · rw [hs] at h; simp at h
    · rw [hs] at h
      simp only [Except.ok.injEq] at h
      rw [h]

theorem getNode_congr {t t' : Tree T} (j : NodeId)
    (hlen : t'.nodes.length = t.nodes.length) (hslot : slotAt t' j = slotAt t j) :
    getNode t' j = getNode t j := by
  rw [getNode_eq_cases, getNode_eq_cases]
  have h1 : t'.nodes.get? j.index = t.nodes.get? j.index := hslot
  rw [h1, hlen]

theorem isValidNodeId_of_getNode_ok {t : Tree T} {j : NodeId} {nd}
    (h : getNode t j = .ok nd) : isValidNodeId t j = .ok () :=
  isValidNodeId_ok_of_slot (getNode_ok_slot h)

@[simp]
theorem setNodeAt_root (t : Tree T) (i : Nat) (nd : Node T) :
    (setNodeAt t i nd).root = t.root := rfl

@[simp]
theorem setNodeAt_free (t : Tree T) (i : Nat) (nd : Node T) :
    (setNodeAt t i nd).free_ids = t.free_ids := rfl

@[simp]
theorem setNodeAt_length (t : Tree T) (i : Nat) (nd : Node T) :
    (setNodeAt t i nd).nodes.length = t.nodes.length := by
  simp [setNodeAt]

theorem slotAt_setNodeAt_self {t : Tree T} {j : NodeId} (nd : Node T)
    (h : j.index < t.nodes.length) :
    slotAt (setNodeAt t j.index nd) j = some (some nd) := by
  show ((t.nodes.set j.index (some nd)).get? j.index) = _
  rw [List.get?_set_eq_of_lt _ h]

theorem slotAt_setNodeAt_ne {t : Tree T} {i : Nat} {j : NodeId} (nd : Node T)
    (h : j.index ≠ i) :
    slotAt (setNodeAt t i nd) j = slotAt t j := by
  show ((t.nodes.set i (some nd)).get? j.index) = _
  rw [List.get?_set_ne _ _ (Ne.symm h)]
  rfl

theorem getNode_setNodeAt_self {t : Tree T} {j : NodeId} (nd : Node T)
    (h : j.index < t.nodes.length) :
    getNode (setNodeAt t j.index nd) j = .ok nd :=
  getNode_of_slot_live (slotAt_setNodeAt_self nd h)

theorem getNode_setNodeAt_ne {t : Tree T} {i : Nat} {j : NodeId} (nd : Node T)
    (h : j.index ≠ i) :
    getNode (setNodeAt t i nd) j = getNode t j :=
  getNode_congr j (by simp) (slotAt_setNodeAt_ne nd h)

theorem modifyNode_ok_inv {t : Tree T} {id : NodeId} {f : Node T → Node T} {t'}
    (h : modifyNode t id f = .ok t') :
    ∃ nd, getNode t id = .ok nd ∧ t' = setNodeAt t id.index (f nd) := by
  unfold modifyNode at h
  split at h
  · cases h
  · next nd heq => exact ⟨nd, heq, by injection h with h; exact h.symm⟩

theorem modifyNode_ok {t : Tree T} {id : NodeId} {nd} (f : Node T → Node T)
    (hg : getNode t id = .ok nd) :
    modifyNode t id f = .ok (setNodeAt t id.index (f nd)) := by
  unfold modifyNode
  rw [hg]

theorem setAsParentAndChild_ok_inv {t : Tree T} {p c : NodeId} {t'}
    (h : setAsParentAndChild t p c = .ok t') :
    ∃ pn cn, getNode t p = .ok pn ∧
      getNode (setNodeAt t p.index { pn with children := pn.children ++ [c] }) c = .ok cn ∧
      t' = setNodeAt (setNodeAt t p.index { pn with children := pn.children ++ [c] })
            c.index { cn with parent := some p } := by
  unfold setAsParentAndChild at h
  split at h
  · cases h
  · next t1 heq1 =>
    obtain ⟨pn, hp, ht1⟩ := modifyNode_ok_inv (expectOk_ok_inv heq1)
    subst ht1
    obtain ⟨cn, hc, ht2⟩ := modifyNode_ok_inv (expectOk_ok_inv h)
    exact ⟨pn, cn, hp, hc, ht2⟩

theorem setAsParentAndChild_frame {t : Tree T} {p c : NodeId} {t'}
    (h : setAsParentAndChild t p c = .ok t') :
    t'.nodes.length = t.nodes.length ∧ t'.free_ids = t.free_ids ∧ t'.root = t.root := by
  obtain ⟨pn, cn, _, _, ht⟩ := setAsParentAndChild_ok_inv h
  subst ht
  simp

theorem setParentOf_frame {t : Tree T} {id : NodeId} {p} {t'}
    (h : setParentOf t id p = .ok t') :
    t'.nodes.length = t.nodes.length ∧ t'.free_ids = t.free_ids ∧ t'.root = t.root := by
  obtain ⟨nd, _, ht⟩ := modifyNode_ok_inv (expectOk_ok_inv h)
  subst ht
  simp

theorem detachFromParent_frame {t : Tree T} {p id : NodeId} {t'}
    (h : detachFromParent t p id = .ok t') :
    t'.nodes.length = t.nodes.length ∧ t'.free_ids = t.free_ids ∧ t'.root = t.root := by
  obtain ⟨nd, _, ht⟩ := modifyNode_ok_inv (expectOk_ok_inv h)
  subst ht
  simp

theorem swapRemove_ok_inv {α} {l : List α} {i : Nat} {x : α} {l'}
    (h : swapRemove l i = .ok (x, l')) :
    l.get? i = some x ∧ ∃ last, l.getLast? = some last ∧ l' = (l.set i last).dropLast := by
  unfold swapRemove at h
  rcases hg : l.get? i with _ | y
  · rw [hg] at h; cases h
  · rcases hl : l.getLast? with _ | last
    · rw [hg, hl] at h; cases h
    · rw [hg, hl] at h
      injection h with h
      injection h with h1 h2
      exact ⟨by rw [h1], last, rfl, h2.symm⟩

theorem takeNode_ok_inv {t : Tree T} {id : NodeId} {nd t'}
    (h : takeNode t id = .ok (nd, t')) :
    slotAt t id = some (some nd) ∧
    t' = { t with nodes := t.nodes.set id.index none,
                  free_ids := t.free_ids ++ [id] } := by
  unfold takeNode at h
  split at h
  · cases h
  · cases h
  · next nd0 nodes' heq =>
    obtain ⟨hget, last, hlast, hnodes⟩ := swapRemove_ok_inv heq
    have hlast' : last = none := by
      have hx : (t.nodes ++ [(none : Option (Node T))]).getLast? = some none := by simp
      rw [hx] at hlast
      injection hlast with hx2
      exact hx2.symm
    subst hlast'
    injection h with h
    injection h with h1 h2
    subst h1
    have hlt : id.index < t.nodes.length := by
      by_contra hle
      push_neg at hle
      rcases Nat.lt_or_ge id.index (t.nodes.length + 1) with hx | hx
      · have hx2 : id.index = t.nodes.length := Nat.le_antisymm (Nat.lt_succ_iff.mp hx) hle
        rw [hx2, List.get?_concat_length] at hget
        cases hget
      · rw [List.get?_eq_none.mpr (by simpa using hx)] at hget
        cases hget
    constructor
    · show t.nodes.get? id.index = _
      rw [List.get?_append hlt] at hget
      exact hget
    · rw [← h2, hnodes, List.set_append_left _ _ hlt]
      simp

theorem removeNodeInternal_ok_inv {t : Tree T} {id : NodeId} {nd t'}
    (h : removeNodeInternal t id = .ok (nd, t')) :
    t'.nodes.length = t.nodes.length ∧
    t'.free_ids = t.free_ids ++ [id] ∧
    slotAt t' id = some none := by
  unfold removeNodeInternal at h
  split at h
  · cases h
  · next nd0 t1 htk =>
    obtain ⟨hslot0, ht1⟩ := takeNode_ok_inv htk
    split at h
    · cases h
    · next t2 hmid =>
      have hlt : id.index <
          (if t.root = some id then { t with root := none } else t).nodes.length :=
        slot_lt_length hslot0
      have ht1len : t1.nodes.length =
          (if t.root = some id then { t with root := none } else t).nodes.length := by
        rw [ht1]; simp
      have ht1free : t1.free_ids =
          (if t.root = some id then { t with root := none } else t).free_ids ++ [id] := by
        rw [ht1]
      have ht1slot : slotAt t1 id = some none := by
        rw [ht1]
        show (((if t.root = some id then { t with root := none }
            else t).nodes.set id.index none).get? id.index) = _
        rw [List.get?_set_eq_of_lt _ hlt]
      have ht2 : t2.nodes.length = t1.nodes.length ∧ t2.free_ids = t1.free_ids ∧
          slotAt t2 id = some none := by
        rcases hp : nd0.parent with _ | pid
        · rw [hp] at hmid
          injection hmid with hmid
          subst hmid
          exact ⟨rfl, rfl, ht1slot⟩
        · rw [hp] at hmid
          obtain ⟨pn, hg, hmt⟩ := modifyNode_ok_inv (expectOk_ok_inv hmid)
          have hpneq : pid.index ≠ id.index := by
            intro he
            have hx := getNode_ok_slot hg
            rw [slotAt, he] at hx
            rw [slotAt] at ht1slot
            rw [ht1slot] at hx
            cases hx
          subst hmt
          refine ⟨by simp, by simp, ?_⟩
          rw [slotAt_setNodeAt_ne _ (fun he => hpneq he.symm)]
          exact ht1slot
      injection h with h
      injection h with hf1 hf2
      subst hf2
      refine ⟨?_, ?_, ht2.2.2⟩
      · rw [ht2.1, ht1len]
        by_cases hr : t.root = some id <;> simp [hr]
      · rw [ht2.2.1, ht1free]
        by_cases hr : t.root = some id <;> simp [hr]

theorem bind_ok_inv {α β} {e : TRes α} {f : α → TRes β} {v}
    (h : (e >>= f) = .ok v) : ∃ a, e = .ok a ∧ f a = .ok v := by
  cases e with
  | ok a => exact ⟨a, rfl, h⟩
  | error err => simp only [tbind_error] at h; cases h

/-- Frame property: an operation preserves storage length, free list and
root pointer. -/
def Frames (t t' : Tree T) : Prop :=
  t'.nodes.length = t.nodes.length ∧ t'.free_ids = t.free_ids ∧ t'.root = t.root

theorem frames_refl (t : Tree T) : Frames t t := ⟨rfl, rfl, rfl⟩

theorem frames_trans {t1 t2 t3 : Tree T} (h1 : Frames t1 t2) (h2 : Frames t2 t3) :
    Frames t1 t3 :=
  ⟨h2.1.trans h1.1, h2.2.1.trans h1.2.1, h2.2.2.trans h1.2.2⟩

theorem foldlM_frames {β : Type} {f : Tree T → β → TRes (Tree T)}
    (hf : ∀ ta b tb, f ta b = .ok tb → Frames ta tb) :
    ∀ (cs : List β) (ta tb : Tree T), cs.foldlM f ta = .ok tb → Frames ta tb := by
  intro cs
  induction cs with
  | nil =>
    intro ta tb h
    rw [List.foldlM_nil] at h
    injection h with h
    rw [h]
    exact frames_refl tb
  | cons c cs ih =>
    intro ta tb h
    rw [List.foldlM_cons] at h
    obtain ⟨t1, h1, h2⟩ := bind_ok_inv h
    exact frames_trans (hf ta c t1 h1) (ih t1 tb h2)

theorem setParentOfChildren_frames {t : Tree T} {id : NodeId} {p} {t'}
    (h : setParentOfChildren t id p = .ok t') : Frames t t' := by
  unfold setParentOfChildren at h
  split at h
  · cases h
  · exact foldlM_frames (fun ta b tb hb => setParentOf_frame hb) _ t t' h

theorem removeNodeLiftChildren_removed {t : Tree T} {id : NodeId} {nd t'}
    (h : removeNodeLiftChildren t id = .ok (nd, t')) :
    t'.nodes.length = t.nodes.length ∧
    (∃ pre, t'.free_ids = pre ++ [id] ∧ pre = t.free_ids) ∧
    slotAt t' id = some none := by
  unfold removeNodeLiftChildren at h
  split at h
  · cases h
  · next nd0 heq0 =>
    split at h
    · next parentId hpar =>
      split at h
      · cases h
      · next nd2 heq2 =>
        split at h
        · cases h
        · next t1 hfold =>
          have hfr : Frames t t1 :=
            foldlM_frames (fun ta b tb hb => setAsParentAndChild_frame hb) _ t t1 hfold
          obtain ⟨hlen, hfree, hslot⟩ := removeNodeInternal_ok_inv h
          exact ⟨hlen.trans hfr.1, ⟨t1.free_ids, hfree, hfr.2.1⟩, hslot⟩
    · next hpar =>
      split at h
      · cases h
      · next t1 hspc =>
        have hfr : Frames t t1 := setParentOfChildren_frames hspc
        obtain ⟨hlen, hfree, hslot⟩ := removeNodeInternal_ok_inv h
        exact ⟨hlen.trans hfr.1, ⟨t1.free_ids, hfree, hfr.2.1⟩, hslot⟩

theorem removeNodeOrphanChildren_removed {t : Tree T} {id : NodeId} {nd t'}
    (h : removeNodeOrphanChildren t id = .ok (nd, t')) :
    t'.nodes.length = t.nodes.length ∧
    (∃ pre, t'.free_ids = pre ++ [id] ∧ pre = t.free_ids) ∧
    slotAt t' id = some none := by
  unfold removeNodeOrphanChildren at h
  split at h
  · cases h
  · next t1 hspc =>
    have hfr : Frames t t1 := setParentOfChildren_frames hspc
    obtain ⟨hlen, hfree, hslot⟩ := removeNodeInternal_ok_inv h
    exact ⟨hlen.trans hfr.1, ⟨t1.free_ids, hfree, hfr.2.1⟩, hslot⟩

theorem removeNodeDropChildren_removed :
    ∀ (fuel : Nat) {t : Tree T} {id : NodeId} {nd t'},
    removeNodeDropChildren fuel t id = .ok (nd, t') →
    t'.nodes.length = t.nodes.length ∧
    (∃ pre, t'.free_ids = pre ++ [id] ∧ ∃ ex, pre = t.free_ids ++ ex) ∧
    slotAt t' id = some none := by
  intro fuel
  induction fuel with
  | zero => intro t id nd t' h; cases h
  | succ fuel ih =>
    have hlist : ∀ (cs : List NodeId) (ta tb : Tree T),
        dropChildrenList (removeNodeDropChildren fuel) ta cs = .ok tb →
        tb.nodes.length = ta.nodes.length ∧ ∃ ex, tb.free_ids = ta.free_ids ++ ex := by
      intro cs
      induction cs with
      | nil =>
        intro ta tb hh
        unfold dropChildrenList at hh
        injection hh with hh
        rw [hh]
        exact ⟨rfl, [], by simp⟩
      | cons c cs ihc =>
        intro ta tb hh
        unfold dropChildrenList at hh
        split at hh
        · cases hh
        · next nd0 ta' hstep =>
          obtain ⟨hlen1, ⟨pre1, hfree1, ex1, hpre1⟩, _⟩ := ih hstep
          obtain ⟨hlen2, ex2, hfree2⟩ := ihc ta' tb hh
          refine ⟨hlen2.trans hlen1, ex1 ++ [c] ++ ex2, ?_⟩
          rw [hfree2, hfree1, hpre1]
          simp
    intro t id nd t' h
    rw [removeNodeDropChildren] at h
    simp only [] at h
    split at h
    · cases h
    · next nd0 heq0 =>
      split at h
      · cases h
      · next t2 hdl =>
        obtain ⟨hlen1, ex1, hfree1⟩ := hlist _ _ _ hdl
        obtain ⟨hlen, hfree, hslot⟩ := removeNodeInternal_ok_inv h
        refine ⟨?_, ⟨t2.free_ids, hfree, ex1, by rw [hfree1]; rfl⟩, hslot⟩
        rw [hlen, hlen1]
        simp

theorem removeNode_removed {fuel : Nat} {t : Tree T} {id : NodeId}
    {b : RemoveBehavior} {nd t'}
    (h : Tree.removeNode fuel t id b = .ok (nd, t')) :
    t'.nodes.length = t.nodes.length ∧
    t'.free_ids.getLast? = some id ∧
    slotAt t' id = some none := by
  unfold Tree.removeNode at h
  split at h
  · cases h
  · cases b with
    | dropChildren =>
      obtain ⟨hlen, ⟨pre, hfree, _⟩, hslot⟩ := removeNodeDropChildren_removed fuel h
      exact ⟨hlen, by rw [hfree]; simp, hslot⟩
    | liftChildren =>
      obtain ⟨hlen, ⟨pre, hfree, _⟩, hslot⟩ := removeNodeLiftChildren_removed h
      exact ⟨hlen, by rw [hfree]; simp, hslot⟩
    | orphanChildren =>
      obtain ⟨hlen, ⟨pre, hfree, _⟩, hslot⟩ := removeNodeOrphanChildren_removed h
      exact ⟨hlen, by rw [hfree]; simp, hslot⟩

theorem swapRemove_append_lt {α} {l : List α} {i : Nat} (hi : i < l.length) (x : α) :
    swapRemove (l ++ [x]) i = .ok (l.get ⟨i, hi⟩, l.set i x) := by
  unfold swapRemove
  have hg : (l ++ [x]).get? i = some (l.get ⟨i, hi⟩) := by
    rw [List.get?_append hi, List.get?_eq_get hi]
  have hl : (l ++ [x]).getLast? = some x := by simp
  rw [hg, hl]
  show Except.ok (l.get ⟨i, hi⟩, ((l ++ [x]).set i x).dropLast) = _
  rw [List.set_append_left _ _ hi]
  simp

theorem insertNewNode_reuse {t : Tree T} {h : NodeId}
    (hlast : t.free_ids.getLast? = some h) (hlt : h.index < t.nodes.length)
    (n : Node T) :
    insertNewNode t n =
      .ok (h, { t with nodes := t.nodes.set h.index (some n),
                       free_ids := t.free_ids.dropLast }) := by
  unfold insertNewNode
  have hne : t.free_ids.isEmpty = false := by
    rcases hfe : t.free_ids with _ | ⟨a, l⟩
    · rw [hfe] at hlast; cases hlast
    · rfl
  rw [if_neg (by rw [hne]; exact Bool.false_ne_true), hlast]
  show (match swapRemove (t.nodes ++ [some n]) h.index with
        | .error e => (.error e : TRes (NodeId × Tree T))
        | .ok (_, nodes') =>
          .ok (h, { t with nodes := nodes', free_ids := t.free_ids.dropLast })) = _
  rw [swapRemove_append_lt hlt (some n)]

theorem dataAt_root_update (t : Tree T) (r : Option NodeId) (j : NodeId) :
    dataAt { t with root := r } j = dataAt t j := rfl

theorem dataAt_setNodeAt_of_data_eq {t : Tree T} {i : Nat} (nd' : Node T)
    (hex : ∃ nd, t.nodes.get? i = some (some nd) ∧ nd'.data = nd.data) (j : NodeId) :
    dataAt (setNodeAt t i nd') j = dataAt t j := by
  obtain ⟨nd, hs, hd⟩ := hex
  by_cases hj : j.index = i
  · have hlt : i < t.nodes.length := (List.get?_eq_some.mp hs).1
    have h1 : getNode (setNodeAt t i nd') j = .ok nd' := by
      rw [← hj] at hlt ⊢
      exact getNode_setNodeAt_self nd' hlt
    have h2 : getNode t j = .ok nd := getNode_of_slot_live (by rw [slotAt, hj]; exact hs)
    unfold dataAt
    rw [h1, h2]
    simp [Except.map, hd]
  · unfold dataAt
    rw [getNode_setNodeAt_ne nd' hj]

theorem dataAt_setAsParentAndChild {t t' : Tree T} {p c : NodeId}
    (h : setAsParentAndChild t p c = .ok t') (j : NodeId) :
    dataAt t' j = dataAt t j := by
  obtain ⟨pn, cn, hp, hc, ht⟩ := setAsParentAndChild_ok_inv h
  subst ht
  rw [dataAt_setNodeAt_of_data_eq { cn with parent := some p }
        ⟨cn, getNode_ok_slot hc, rfl⟩ j,
    dataAt_setNodeAt_of_data_eq { pn with children := pn.children ++ [c] }
        ⟨pn, getNode_ok_slot hp, rfl⟩ j]

theorem dataAt_ok_inv {t : Tree T} {j : NodeId} {d}
    (h : dataAt t j = .ok d) : ∃ nd, getNode t j = .ok nd ∧ nd.data = d := by
  unfold dataAt at h
  rcases hg : getNode t j with e | nd
  · rw [hg] at h; cases h
  · rw [hg] at h
    refine ⟨nd, rfl, ?_⟩
    have : (Except.ok nd.data : TRes T) = .ok d := h
    injection this

theorem insert_after_remove {t' : Tree T} {h : NodeId} {n : Node T}
    {ib : InsertBehavior} {id2 : NodeId} {t'' : Tree T}
    (hlast : t'.free_ids.getLast? = some h) (hts : slotAt t' h = some none)
    (hins : Tree.insert t' n ib = .ok (id2, t'')) :
    id2 = h ∧ dataAt t'' h = .ok n.data := by
  have hlt : h.index < t'.nodes.length := slot_lt_length hts
  have hinn := insertNewNode_reuse hlast hlt n
  have hdata1 : dataAt { t' with
                         nodes := t'.nodes.set h.index (some n),
                         free_ids := t'.free_ids.dropLast } h = .ok n.data := by
    unfold dataAt
    have hgx : getNode { t' with
                         nodes := t'.nodes.set h.index (some n),
                         free_ids := t'.free_ids.dropLast } h = .ok n := by
      apply getNode_of_slot_live
      show ((t'.nodes.set h.index (some n)).get? h.index) = _
      rw [List.get?_set_eq_of_lt _ hlt]
    rw [hgx]
    rfl
  generalize ht1 : ({ t' with
                      nodes := t'.nodes.set h.index (some n),
                      free_ids := t'.free_ids.dropLast } : Tree T) = t1 at hinn hdata1
  cases ib with
  | asRoot =>
    have hA : setRoot t' n = .ok (id2, t'') := hins
    unfold setRoot at hA
    rw [hinn] at hA
    have hA2 : (match (match t1.root with
                       | some curRoot => setAsParentAndChild t1 h curRoot
                       | none => .ok t1) with
                | .error e => (.error e : TRes (NodeId × Tree T))
                | .ok t2 => .ok (h, { t2 with root := some h })) = .ok (id2, t'') := hA
    rcases hr : t1.root with _ | curRoot
    · rw [hr] at hA2
      have hA3 : (Except.ok (h, { t1 with root := some h }) :
          TRes (NodeId × Tree T)) = .ok (id2, t'') := hA2
      injection hA3 with hA3
      injection hA3 with h1 h2
      refine ⟨h1.symm, ?_⟩
      rw [← h2, dataAt_root_update]
      exact hdata1
    · rw [hr] at hA2
      have hA2' : (match setAsParentAndChild t1 h curRoot with
                   | .error e => (.error e : TRes (NodeId × Tree T))
                   | .ok t2 => .ok (h, { t2 with root := some h })) =
          .ok (id2, t'') := hA2
      rcases hset : setAsParentAndChild t1 h curRoot with e | t2
      · rw [hset] at hA2'
        have hA4 : (Except.error e : TRes (NodeId × Tree T)) = .ok (id2, t'') := hA2'
        cases hA4
      · rw [hset] at hA2'
        have hA3 : (Except.ok (h, { t2 with root := some h }) :
            TRes (NodeId × Tree T)) = .ok (id2, t'') := hA2'
        injection hA3 with hA3
        injection hA3 with h1 h2
        refine ⟨h1.symm, ?_⟩
        rw [← h2, dataAt_root_update, dataAt_setAsParentAndChild hset h]
        exact hdata1
  | underNode pid =>
    have hB0 : (match isValidNodeId t' pid with
                | .error e => (.error e : TRes (NodeId × Tree T))
                | .ok _ => insertWithParent t' n pid) = .ok (id2, t'') := hins
    rcases hv : isValidNodeId t' pid with e | u
    · rw [hv] at hB0
      have hB1 : (Except.error e : TRes (NodeId × Tree T)) = .ok (id2, t'') := hB0
      cases hB1
    · cases u
      rw [hv] at hB0
      have hB : insertWithParent t' n pid = .ok (id2, t'') := hB0
      unfold insertWithParent at hB
      rw [hinn] at hB
      have hB2 : (match setAsParentAndChild t1 pid h with
                  | .error e => (.error e : TRes (NodeId × Tree T))
                  | .ok t2 => .ok (h, t2)) = .ok (id2, t'') := hB
      rcases hset : setAsParentAndChild t1 pid h with e | t2
      · rw [hset] at hB2
        have hB3 : (Except.error e : TRes (NodeId × Tree T)) = .ok (id2, t'') := hB2
        cases hB3
      · rw [hset] at hB2
        have hB3 : (Except.ok (h, t2) : TRes (NodeId × Tree T)) = .ok (id2, t'') := hB2
        injection hB3 with hB3
        injection hB3 with h1 h2
        refine ⟨h1.symm, ?_⟩
        rw [← h2, dataAt_setAsParentAndChild hset h]
        exact hdata1

/-- C9: removing a node under any `RemoveBehavior` leaves the storage length
unchanged (the slot is tombstoned in place) and pushes the handle last on the
free list; the next insert (either behavior) pops that entry, reuses the slot
and returns a handle equal to the removed one, so a retained pre-removal copy
of the handle passes the validity check again and reads the new node's data. -/
theorem c9_remove_then_insert_reuses_slot {fuel : Nat} {t : Tree T} {h : NodeId}
    {b : RemoveBehavior} {nd : Node T} {t' : Tree T} {n : Node T}
    {ib : InsertBehavior} {id2 : NodeId} {t'' : Tree T}
    (hrm : Tree.removeNode fuel t h b = .ok (nd, t'))
    (hins : Tree.insert t' n ib = .ok (id2, t'')) :
    t'.nodes.length = t.nodes.length ∧
    slotAt t' h = some none ∧
    t'.free_ids.getLast? = some h ∧
    id2 = h ∧
    isValidNodeId t'' h = .ok () ∧
    dataAt t'' h = .ok n.data := by
  obtain ⟨hlen, hlast, hts⟩ := removeNode_removed hrm
  obtain ⟨hid, hdata⟩ := insert_after_remove hlast hts hins
  obtain ⟨nd2, hg2, _⟩ := dataAt_ok_inv hdata
  exact ⟨hlen, hts, hlast, hid, isValidNodeId_of_getNode_ok hg2, hdata⟩

/-- Witness for C9: remove the child of `pairTree` (LiftChildren), then
insert a fresh node as the new root; the stale handle 1 is returned again
and now reads data 7. -/
theorem c9_witness :
    Tree.removeNode 5 pairTree ⟨1⟩ .liftChildren = .ok (⟨1, none, []⟩, removedPairTree) ∧
    Tree.insert removedPairTree ⟨7, none, []⟩ .asRoot = .ok (⟨1⟩, reusedTree) ∧
    (removedPairTree.nodes.length = pairTree.nodes.length ∧
     slotAt removedPairTree ⟨1⟩ = some none ∧
     removedPairTree.free_ids.getLast? = some ⟨1⟩ ∧
     (⟨1⟩ : NodeId) = ⟨1⟩ ∧
     isValidNodeId reusedTree ⟨1⟩ = .ok () ∧
     dataAt reusedTree ⟨1⟩ = .ok (⟨7, none, []⟩ : Node Nat).data) :=
  ⟨rfl, rfl, c9_remove_then_insert_reuses_slot
    (show Tree.removeNode 5 pairTree ⟨1⟩ .liftChildren =
        .ok (⟨1, none, []⟩, removedPairTree) from rfl)
    (show Tree.insert removedPairTree ⟨7, none, []⟩ .asRoot =
        .ok (⟨1⟩, reusedTree) from rfl)⟩

/-- C1: the spec says every public operation which is given a tombstoned
handle fails with the recoverable `InvalidHandle` error.  On the code,
`is_valid_node_id` fails to detect an in-bounds tombstoned slot, so
`remove_node` on a handle that was just removed reaches
`get_mut(..).expect(..)` and panics instead of returning the error; this
contradicts the function's own documentation ("# Errors: Can error if the
given NodeId is not valid (i.e. it was removed from the Tree)") and the
doc of `NodeIdError::NodeIdNoLongerValid`.  The first conjunct shows the
failing state is reached through the public API. -/
theorem c1_remove_node_tombstoned_panics :
    Tree.removeNode 5 pairTree ⟨1⟩ .liftChildren =
      .ok (⟨1, none, []⟩, removedPairTree) ∧
    slotAt removedPairTree ⟨1⟩ = some none ∧
    Tree.removeNode 5 removedPairTree ⟨1⟩ .dropChildren = .error .panicked := by
  exact ⟨rfl, rfl, rfl⟩

/-- C2: the spec says every operation — `move_node` with `ToRoot` in
particular — preserves acyclicity of parent links.  Moving the current root
to the root, a live-handle call, makes the root its own parent and its own
child: `move_node_to_root` re-parents the old root (which is the node
itself) under the node via `set_as_parent_and_child(node, node)`. -/
theorem c2_move_to_root_creates_parent_cycle :
    Tree.moveNode 5 singleTree ⟨0⟩ .toRoot = .ok cycledTree ∧
    cycledTree.root = some ⟨0⟩ ∧
    parentAt cycledTree ⟨0⟩ = .ok (some ⟨0⟩) ∧
    childrenAt cycledTree ⟨0⟩ = .ok [⟨0⟩] := by
  exact ⟨rfl, rfl, rfl, rfl⟩

/-- C3: the spec says a tombstoned handle is rejected before any mutation, so
the tree is unchanged.  On the code, `insert(node, UnderNode(stale))` passes
the broken validity check, mutates storage by inserting the new node (into
the very slot of the stale handle here), wires the new node up as its own
parent and child, and returns `Ok` — the failure is neither detected nor
mutation-free. -/
theorem c3_insert_under_tombstone_mutates_and_succeeds :
    slotAt removedPairTree ⟨1⟩ = some none ∧
    Tree.insert removedPairTree ⟨2, none, []⟩ (.underNode ⟨1⟩) =
      .ok (⟨1⟩, aliasedTree) ∧
    aliasedTree.nodes ≠ removedPairTree.nodes ∧
    parentAt aliasedTree ⟨1⟩ = .ok (some ⟨1⟩) := by
  exact ⟨rfl, rfl, by decide, rfl⟩

/-- C5: the spec says an index at or beyond the storage bounds is fatal (an
assertion failure) and the recoverable `InvalidHandle` error is reserved for
in-bounds tombstoned slots.  On the code, the assertion is `idx <= len`, so
the out-of-bounds index `idx == len` (here: handle 0 against an empty tree)
falls through to the recoverable error, while an in-bounds tombstoned slot
passes the validity check with `Ok` — both halves of the claim fail. -/
theorem c5_out_of_bounds_is_recoverable_and_tombstone_passes :
    emptyTree.nodes.length = 0 ∧
    isValidNodeId emptyTree ⟨0⟩ = .error .invalid ∧
    slotAt removedPairTree ⟨1⟩ = some none ∧
    isValidNodeId removedPairTree ⟨1⟩ = .ok () := by
  exact ⟨rfl, rfl, rfl, rfl⟩

theorem preOrderIdsStep_nil (t : Tree T) : preOrderIdsStep t [] = .ok none := rfl

theorem preOrderIdsStep_cons (t : Tree T) (id : NodeId) (rest : List NodeId) :
    preOrderIdsStep t (id :: rest) =
      match resultOk (getNode t id) with
      | .error e => .error e
      | .ok (some nd) => .ok (some (id, nd.children ++ rest))
      | .ok none => .ok none := rfl

theorem preOrderStep_cons (t : Tree T) (id : NodeId) (rest : List NodeId) :
    preOrderStep t (id :: rest) =
      match resultOk (getNode t id) with
      | .error e => .error e
      | .ok (some nd) => .ok (some (nd, nd.children ++ rest))
      | .ok none => .ok none := rfl

theorem preOrderIdsStep_cons_live {t : Tree T} {id : NodeId} {nd} (rest : List NodeId)
    (hg : getNode t id = .ok nd) :
    preOrderIdsStep t (id :: rest) = .ok (some (id, nd.children ++ rest)) := by
  rw [preOrderIdsStep_cons, hg]
  rfl

theorem preOrderStep_cons_live {t : Tree T} {id : NodeId} {nd} (rest : List NodeId)
    (hg : getNode t id = .ok nd) :
    preOrderStep t (id :: rest) = .ok (some (nd, nd.children ++ rest)) := by
  rw [preOrderStep_cons, hg]
  rfl

theorem preOrderStep_none_of_ids_none {t : Tree T} {s : PreOrderStack}
    (h : preOrderIdsStep t s = .ok none) : preOrderStep t s = .ok none := by
  cases s with
  | nil => rfl
  | cons id rest =>
    rw [preOrderIdsStep_cons] at h
    rw [preOrderStep_cons]
    rcases hg : getNode t id with e | nd
    · rw [hg] at h
      cases e
      · simp [resultOk] at h
      · simp [resultOk]
      · simp [resultOk] at h
    · rw [hg] at h
      simp [resultOk] at h

theorem preOrderIdsStep_some_inv {t : Tree T} {s : PreOrderStack} {a : NodeId}
    {s' : PreOrderStack} (h : preOrderIdsStep t s = .ok (some (a, s'))) :
    ∃ nd, getNode t a = .ok nd ∧ preOrderStep t s = .ok (some (nd, s')) := by
  cases s with
  | nil => cases h
  | cons id rest =>
    rw [preOrderIdsStep_cons] at h
    rcases hg : getNode t id with e | nd
    · rw [hg] at h
      cases e <;> simp [resultOk] at h
    · rw [hg] at h
      simp only [resultOk, Except.ok.injEq, Option.some.injEq, Prod.mk.injEq] at h
      obtain ⟨h3, h4⟩ := h
      subst h3
      subst h4
      exact ⟨nd, hg, preOrderStep_cons_live rest hg⟩

theorem preIdsYields_det {t : Tree T} :
    ∀ {s : PreOrderStack} {l₁ l₂ : List NodeId},
    PreIdsYields t s l₁ → PreIdsYields t s l₂ → l₁ = l₂ := by
  intro s l₁ l₂ h1 h2
  induction h1 generalizing l₂ with
  | done hs =>
    cases h2 with
    | done hs2 => rfl
    | step hs2 _ => rw [hs] at hs2; cases hs2
  | step hs _ ih =>
    cases h2 with
    | done hs2 => rw [hs] at hs2; cases hs2
    | step hs2 hrest2 =>
      rw [hs] at hs2
      injection hs2 with hs2
      injection hs2 with hs2
      injection hs2 with h3 h4
      subst h3
      subst h4
      rw [ih hrest2]

theorem preNodesYields_det {t : Tree T} :
    ∀ {s : PreOrderStack} {l₁ l₂ : List (Node T)},
    PreNodesYields t s l₁ → PreNodesYields t s l₂ → l₁ = l₂ := by
  intro s l₁ l₂ h1 h2
  induction h1 generalizing l₂ with
  | done hs =>
    cases h2 with
    | done hs2 => rfl
    | step hs2 _ => rw [hs] at hs2; cases hs2
  | step hs _ ih =>
    cases h2 with
    | done hs2 => rw [hs] at hs2; cases hs2
    | step hs2 hrest2 =>
      rw [hs] at hs2
      injection hs2 with hs2
      injection hs2 with hs2
      injection hs2 with h3 h4
      subst h3
      subst h4
      rw [ih hrest2]

theorem preIdsYields_to_nodes {t : Tree T} :
    ∀ {s : PreOrderStack} {l : List NodeId}, PreIdsYields t s l →
    ∃ ns, PreNodesYields t s ns ∧
      List.Forall₂ (fun id nd => getNode t id = .ok nd) l ns := by
  intro s l h
  induction h with
  | done hs => exact ⟨[], .done (preOrderStep_none_of_ids_none hs), .nil⟩
  | step hs _ ih =>
    obtain ⟨nd, hg, hstep⟩ := preOrderIdsStep_some_inv hs
    obtain ⟨ns, hy, hf⟩ := ih
    exact ⟨nd :: ns, .step hstep hy, .cons hg hf⟩

theorem dfsForest_yields_splice {t : Tree T} :
    ∀ {ids l : List NodeId}, DfsForest t ids l →
    ∀ {rest k : List NodeId}, PreIdsYields t rest k →
    PreIdsYields t (ids ++ rest) (l ++ k) := by
  intro ids l h
  induction h with
  | nil => intro rest k hk; exact hk
  | @cons id nd ids' l₁ l₂ hg hf1 hf2 ih1 ih2 =>
    intro rest k hk
    have h2 := ih1 (ih2 hk)
    have h3 : PreIdsYields t (id :: (ids' ++ rest)) (id :: (l₁ ++ (l₂ ++ k))) :=
      .step (preOrderIdsStep_cons_live (ids' ++ rest) hg) h2
    simpa [List.append_assoc] using h3

/-- C8: for a tree and live starting handle whose subtree has the pre-order
listing `out` (as described by `DfsForest`, which also requires every subtree
node to be live, as the structural invariants guarantee), both traversal
producers are constructed successfully, the id flavour yields exactly `out`,
the node flavour yields exactly the corresponding nodes, and re-running
either traversal yields the identical sequence (determinism). -/
theorem c8_pre_order_traversal_spec {t : Tree T} {h : NodeId} {out : List NodeId}
    (hd : DfsForest t [h] out) :
    Tree.traversePreOrderIds t h = .ok [h] ∧
    Tree.traversePreOrder t h = .ok [h] ∧
    PreIdsYields t [h] out ∧
    (∀ out', PreIdsYields t [h] out' → out' = out) ∧
    (∃ ns, PreNodesYields t [h] ns ∧
      List.Forall₂ (fun id nd => getNode t id = .ok nd) out ns) ∧
    (∀ ns₁ ns₂, PreNodesYields t [h] ns₁ → PreNodesYields t [h] ns₂ → ns₁ = ns₂) := by
  have hvalid : isValidNodeId t h = .ok () := by
    cases hd with
    | cons hg _ _ => exact isValidNodeId_of_getNode_ok hg
  have hy : PreIdsYields t [h] out := by
    have h0 : PreIdsYields t [] [] := .done (preOrderIdsStep_nil t)
    have h1 := dfsForest_yields_splice hd h0
    simpa using h1
  refine ⟨?_, ?_, hy, ?_, preIdsYields_to_nodes hy,
    fun ns₁ ns₂ h1 h2 => preNodesYields_det h1 h2⟩
  · unfold Tree.traversePreOrderIds
    rw [hvalid]
  · unfold Tree.traversePreOrder
    rw [hvalid]
  · intro out' h'
    exact preIdsYields_det h' hy

/-- Witness for C8 at `chainTree` (root 0 with child 1; 1 has children 2, 3):
the pre-order listing is 0, 1, 2, 3. -/
theorem c8_witness :
    DfsForest chainTree [⟨0⟩] [⟨0⟩, ⟨1⟩, ⟨2⟩, ⟨3⟩] ∧
    (Tree.traversePreOrderIds chainTree ⟨0⟩ = .ok [⟨0⟩] ∧
     Tree.traversePreOrder chainTree ⟨0⟩ = .ok [⟨0⟩] ∧
     PreIdsYields chainTree [⟨0⟩] [⟨0⟩, ⟨1⟩, ⟨2⟩, ⟨3⟩] ∧
     (∀ out', PreIdsYields chainTree [⟨0⟩] out' → out' = [⟨0⟩, ⟨1⟩, ⟨2⟩, ⟨3⟩]) ∧
     (∃ ns, PreNodesYields chainTree [⟨0⟩] ns ∧
       List.Forall₂ (fun id nd => getNode chainTree id = .ok nd)
         [⟨0⟩, ⟨1⟩, ⟨2⟩, ⟨3⟩] ns) ∧
     (∀ ns₁ ns₂, PreNodesYields chainTree [⟨0⟩] ns₁ →
       PreNodesYields chainTree [⟨0⟩] ns₂ → ns₁ = ns₂)) := by
  have hg0 : getNode chainTree ⟨0⟩ = .ok ⟨0, none, [⟨1⟩]⟩ := rfl
  have hg1 : getNode chainTree ⟨1⟩ = .ok ⟨1, some ⟨0⟩, [⟨2⟩, ⟨3⟩]⟩ := rfl
  have hg2 : getNode chainTree ⟨2⟩ = .ok ⟨2, some ⟨1⟩, []⟩ := rfl
  have hg3 : getNode chainTree ⟨3⟩ = .ok ⟨3, some ⟨1⟩, []⟩ := rfl
  have h2 : DfsForest chainTree [⟨2⟩, ⟨3⟩] [⟨2⟩, ⟨3⟩] :=
    .cons hg2 .nil (.cons hg3 .nil .nil)
  have h1 : DfsForest chainTree [⟨1⟩] [⟨1⟩, ⟨2⟩, ⟨3⟩] :=
    .cons hg1 h2 .nil
  have h0 : DfsForest chainTree [⟨0⟩] [⟨0⟩, ⟨1⟩, ⟨2⟩, ⟨3⟩] :=
    .cons hg0 h1 .nil
  exact ⟨h0, c8_pre_order_traversal_spec h0⟩

theorem mem_liveEnum {t : Tree T} {i : Nat} {nd : Node T} :
    (i, nd) ∈ liveEnum t ↔ t.nodes.get? i = some (some nd) := by
  unfold liveEnum
  rw [List.mem_filterMap]
  constructor
  · rintro ⟨⟨j, slot⟩, hmem, hf⟩
    rcases slot with _ | nd2
    · cases hf
    · simp at hf
      obtain ⟨h1, h2⟩ := hf
      subst h1
      subst h2
      exact List.mem_enum_iff_get?.mp hmem
  · intro hg
    exact ⟨(i, some nd), List.mem_enum_iff_get?.mpr hg, rfl⟩

theorem countP_isSome_eq_length_liveEnum (t : Tree T) :
    t.nodes.countP Option.isSome = (liveEnum t).length := by
  unfold liveEnum
  suffices hgen : ∀ (n : Nat) (l : List (Option (Node T))),
      ((l.enumFrom n).filterMap (fun p => p.2.map (fun nd => (p.1, nd)))).length =
        l.countP Option.isSome by
    exact (hgen 0 t.nodes).symm
  intro n l
  induction l generalizing n with
  | nil => rfl
  | cons a l ih =>
    cases a with
    | none => simp [List.enumFrom, List.countP_cons, ih]
    | some nd => simp [List.enumFrom, List.countP_cons, ih]

theorem parentDataOf_eq_spec {t : Tree T} {nd : Node T}
    (hb : ∀ pid ∈ nd.parent, pid.index ≤ t.nodes.length) :
    parentDataOf t nd = .ok (parentDataSpec t nd) := by
  unfold parentDataOf parentDataSpec getNodeOpt
  rcases hp : nd.parent with _ | pid
  · rfl
  · have hble : pid.index ≤ t.nodes.length := hb pid (by rw [hp]; rfl)
    show (match resultOk (getNode t pid) with
          | .error e => (.error e : TRes (Option T))
          | .ok p => .ok (p.map Node.data)) =
        .ok (((t.nodes.get? pid.index).join).map Node.data)
    rw [getNode_eq_cases]
    rcases hs : t.nodes.get? pid.index with _ | sl
    · simp [resultOk, hble]
    · rcases sl with _ | nd2 <;> simp [resultOk]

theorem treeEqPairs_cons [DecidableEq T] {t1 t2 : Tree T} {p q : Nat × Node T}
    {pd1 pd2 : Option T} (h1 : parentDataOf t1 p.2 = .ok pd1)
    (h2 : parentDataOf t2 q.2 = .ok pd2)
    (rest : List ((Nat × Node T) × (Nat × Node T))) :
    treeEqPairs t1 t2 ((p, q) :: rest) =
      if p.1 ≠ q.1 ∨ p.2.data ≠ q.2.data ∨ pd1 ≠ pd2 then .ok false
      else treeEqPairs t1 t2 rest := by
  show (match parentDataOf t1 p.2 with
        | .error e => (.error e : TRes Bool)
        | .ok pd1' =>
          match parentDataOf t2 q.2 with
          | .error e => .error e
          | .ok pd2' =>
            if p.1 ≠ q.1 ∨ p.2.data ≠ q.2.data ∨ pd1' ≠ pd2' then .ok false
            else treeEqPairs t1 t2 rest) = _
  rw [h1]
  show (match parentDataOf t2 q.2 with
        | .error e => (.error e : TRes Bool)
        | .ok pd2' =>
          if p.1 ≠ q.1 ∨ p.2.data ≠ q.2.data ∨ pd1 ≠ pd2' then .ok false
          else treeEqPairs t1 t2 rest) = _
  rw [h2]

theorem treeEqPairs_iff [DecidableEq T] {t1 t2 : Tree T} :
    ∀ (pairs : List ((Nat × Node T) × (Nat × Node T))),
    (∀ pr ∈ pairs, parentDataOf t1 pr.1.2 = .ok (parentDataSpec t1 pr.1.2) ∧
                   parentDataOf t2 pr.2.2 = .ok (parentDataSpec t2 pr.2.2)) →
    (treeEqPairs t1 t2 pairs = .ok true ↔
      ∀ pr ∈ pairs, pr.1.1 = pr.2.1 ∧ pr.1.2.data = pr.2.2.data ∧
        parentDataSpec t1 pr.1.2 = parentDataSpec t2 pr.2.2) := by
  intro pairs
  induction pairs with
  | nil =>
    intro _
    constructor
    · intro _ pr hm; cases hm
    · intro _; rfl
  | cons pq rest ih =>
    intro hpar
    obtain ⟨p, q⟩ := pq
    have h1 := (hpar (p, q) (by simp)).1
    have h2 := (hpar (p, q) (by simp)).2
    rw [treeEqPairs_cons h1 h2 rest, List.forall_mem_cons]
    by_cases hc : p.1 ≠ q.1 ∨ p.2.data ≠ q.2.data ∨
        parentDataSpec t1 p.2 ≠ parentDataSpec t2 q.2
    · rw [if_pos hc]
      constructor
      · intro hfalse; exact absurd hfalse (by simp)
      · intro hall
        exfalso
        obtain ⟨⟨e1, e2, e3⟩, _⟩ := hall
        rcases hc with hx | hx | hx
        · exact hx e1
        · exact hx e2
        · exact hx e3
    · rw [if_neg hc]
      push_neg at hc
      rw [ih (fun pr hm => hpar pr (by simp [hm]))]
      constructor
      · intro hrest; exact ⟨⟨hc.1, hc.2.1, hc.2.2⟩, hrest⟩
      · intro hall; exact hall.2

theorem zip_self_mem {α : Type} : ∀ {l : List α} {pr : α × α}, pr ∈ l.zip l → pr.1 = pr.2 := by
  intro l
  induction l with
  | nil => intro pr hm; cases hm
  | cons a l ih =>
    intro pr hm
    rcases List.mem_cons.mp hm with hx | hx
    · rw [hx]
    · exact ih hx

theorem getNodeOpt_some_iff {t : Tree T} {pid : NodeId} {nd : Node T} :
    getNodeOpt t pid = some nd ↔ (pid.index, nd) ∈ liveEnum t := by
  rw [mem_liveEnum]
  unfold getNodeOpt
  rcases hs : t.nodes.get? pid.index with _ | sl
  · simp
  · rcases sl with _ | nd2 <;> simp

theorem getNodeOpt_congr {t1 t2 : Tree T} (heq : liveEnum t1 = liveEnum t2)
    (pid : NodeId) : getNodeOpt t1 pid = getNodeOpt t2 pid := by
  rcases h1 : getNodeOpt t1 pid with _ | nd
  · rcases h2 : getNodeOpt t2 pid with _ | nd2
    · rfl
    · have hm := getNodeOpt_some_iff.mp h2
      rw [← heq] at hm
      have hx := getNodeOpt_some_iff.mpr hm
      rw [h1] at hx
      cases hx
  · have hm := getNodeOpt_some_iff.mp h1
    rw [heq] at hm
    exact (getNodeOpt_some_iff.mpr hm).symm

theorem parentDataSpec_congr {t1 t2 : Tree T} (heq : liveEnum t1 = liveEnum t2)
    (nd : Node T) : parentDataSpec t1 nd = parentDataSpec t2 nd := by
  unfold parentDataSpec
  rcases hp : nd.parent with _ | pid
  · rfl
  · show Option.map Node.data (getNodeOpt t1 pid) = Option.map Node.data (getNodeOpt t2 pid)
    rw [getNodeOpt_congr heq pid]

/-- C7: the derived `PartialEq` on trees holds exactly when both trees have
the same number of live nodes and, pairing the live slots in increasing
index order, each pair sits at the same index, holds equal data, and has
parents with equal data (parents compared by node data, not handle).  In
particular trees whose live-slot listings coincide — differing only in
which further slots are tombstoned or in their free lists — compare equal.
The hypotheses only require parent indices of live nodes not to exceed the
storage length (guaranteed by the structural invariants); an index beyond
that makes the Rust comparison panic. -/
theorem c7_partial_eq_matches_spec [DecidableEq T] (t1 t2 : Tree T)
    (hb1 : ∀ pr ∈ liveEnum t1, ∀ pid ∈ pr.2.parent, pid.index ≤ t1.nodes.length)
    (hb2 : ∀ pr ∈ liveEnum t2, ∀ pid ∈ pr.2.parent, pid.index ≤ t2.nodes.length) :
    (treeEq t1 t2 = .ok true ↔ TreeEqSpec t1 t2) ∧
    (liveEnum t1 = liveEnum t2 → treeEq t1 t2 = .ok true) := by
  have hpar : ∀ pr ∈ (liveEnum t1).zip (liveEnum t2),
      parentDataOf t1 pr.1.2 = .ok (parentDataSpec t1 pr.1.2) ∧
      parentDataOf t2 pr.2.2 = .ok (parentDataSpec t2 pr.2.2) := by
    intro pr hm
    obtain ⟨hm1, hm2⟩ := List.of_mem_zip hm
    exact ⟨parentDataOf_eq_spec (hb1 pr.1 hm1), parentDataOf_eq_spec (hb2 pr.2 hm2)⟩
  have hiff : treeEq t1 t2 = .ok true ↔ TreeEqSpec t1 t2 := by
    unfold treeEq TreeEqSpec
    by_cases hcnt : t1.nodes.countP Option.isSome ≠ t2.nodes.countP Option.isSome
    · rw [if_pos hcnt]
      constructor
      · intro hfalse; exact absurd hfalse (by simp)
      · intro hspec
        exfalso
        apply hcnt
        rw [countP_isSome_eq_length_liveEnum, countP_isSome_eq_length_liveEnum]
        exact hspec.1
    · rw [if_neg hcnt]
      push_neg at hcnt
      have hlen : (liveEnum t1).length = (liveEnum t2).length := by
        rw [← countP_isSome_eq_length_liveEnum, ← countP_isSome_eq_length_liveEnum]
        exact hcnt
      rw [treeEqPairs_iff _ hpar]
      exact ⟨fun hp => ⟨hlen, hp⟩, fun hs => hs.2⟩
  refine ⟨hiff, ?_⟩
  intro heq
  apply hiff.mpr
  refine ⟨by rw [heq], ?_⟩
  intro pr hm
  rw [heq] at hm
  have hsame := zip_self_mem hm
  refine ⟨by rw [hsame], by rw [hsame], ?_⟩
  rw [hsame]
  exact parentDataSpec_congr heq pr.2.2

/-- Witness for C7: `pairTree` and `paddedPairTree` differ only in a
tombstoned slot and the free list, and indeed compare equal. -/
theorem c7_witness :
    (∀ pr ∈ liveEnum pairTree, ∀ pid ∈ pr.2.parent,
      pid.index ≤ pairTree.nodes.length) ∧
    (∀ pr ∈ liveEnum paddedPairTree, ∀ pid ∈ pr.2.parent,
      pid.index ≤ paddedPairTree.nodes.length) ∧
    ((treeEq pairTree paddedPairTree = .ok true ↔
        TreeEqSpec pairTree paddedPairTree) ∧
     (liveEnum pairTree = liveEnum paddedPairTree →
        treeEq pairTree paddedPairTree = .ok true)) ∧
    treeEq pairTree paddedPairTree = .ok true := by
  have hb1 : ∀ pr ∈ liveEnum pairTree, ∀ pid ∈ pr.2.parent,
      pid.index ≤ pairTree.nodes.length := by decide
  have hb2 : ∀ pr ∈ liveEnum paddedPairTree, ∀ pid ∈ pr.2.parent,
      pid.index ≤ paddedPairTree.nodes.length := by decide
  have hmain := c7_partial_eq_matches_spec pairTree paddedPairTree hb1 hb2
  exact ⟨hb1, hb2, hmain, hmain.2 (by decide)⟩

theorem index_ne {a b : NodeId} (h : a ≠ b) : a.index ≠ b.index := by
  intro he
  apply h
  cases a
  cases b
  simpa using he

theorem takeNode_forward {t : Tree T} {id : NodeId} {nd : Node T}
    (hs : slotAt t id = some (some nd)) :
    takeNode t id = .ok (nd, { t with nodes := t.nodes.set id.index none,
                                      free_ids := t.free_ids ++ [id] }) := by
  unfold takeNode
  have hlt := slot_lt_length hs
  rw [swapRemove_append_lt hlt none]
  have hget : t.nodes.get ⟨id.index, hlt⟩ = some nd := by
    have hs' : t.nodes.get? id.index = some (some nd) := hs
    have hx := List.get?_eq_get hlt
    rw [hs'] at hx
    injection hx with hx
    exact hx.symm
  rw [hget]

theorem getNode_root_update (t : Tree T) (r : Option NodeId) (j : NodeId) :
    getNode { t with root := r } j = getNode t j := rfl

theorem removeNodeInternal_core {t0 : Tree T} {id : NodeId} {nd : Node T}
    (hs : slotAt t0 id = some (some nd))
    (hpar : ∀ pid ∈ nd.parent, pid ≠ id ∧ ∃ pn, getNode t0 pid = .ok pn) :
    ∃ r, (match takeNode t0 id with
          | .error e => (.error e : TRes (Node T × Tree T))
          | .ok (nd1, t1) =>
            match (match nd1.parent with
                   | some pid =>
                     expectOk (modifyNode t1 pid
                       (fun p =>
                         { p with children := p.children.filter (fun c => c ≠ id) }))
                   | none => (.ok t1 : TRes (Tree T))) with
            | .error e => .error e
            | .ok t2 => .ok ({ nd1 with children := [], parent := none }, t2)) =
        .ok ({ nd with children := [], parent := none }, r) ∧
      r.nodes.length = t0.nodes.length ∧
      r.free_ids = t0.free_ids ++ [id] ∧
      r.root = t0.root ∧
      slotAt r id = some none ∧
      (∀ pid pn, nd.parent = some pid → getNode t0 pid = .ok pn →
        getNode r pid =
          .ok { pn with children := pn.children.filter (fun c => c ≠ id) }) ∧
      (∀ j : NodeId, j ≠ id → (∀ pid ∈ nd.parent, j ≠ pid) →
        getNode r j = getNode t0 j) := by
  have hlt := slot_lt_length hs
  rw [takeNode_forward hs]
  have hT1len : ({ t0 with nodes := t0.nodes.set id.index none, free_ids := t0.free_ids ++ [id] } : Tree T).nodes.length = t0.nodes.length := by
    simp
  have hT1slot : slotAt ({ t0 with nodes := t0.nodes.set id.index none, free_ids := t0.free_ids ++ [id] } : Tree T) id = some none := by
    show ((t0.nodes.set id.index none).get? id.index) = _
    rw [List.get?_set_eq_of_lt _ hlt]
  have hT1other : ∀ j : NodeId, j ≠ id →
      getNode ({ t0 with nodes := t0.nodes.set id.index none, free_ids := t0.free_ids ++ [id] } : Tree T) j = getNode t0 j := by
    intro j hj
    apply getNode_congr
    · simp
    · show ((t0.nodes.set id.index none).get? j.index) = _
      rw [List.get?_set_ne _ _ (fun he => (index_ne hj) he.symm)]
      rfl
  generalize hT1 : ({ t0 with nodes := t0.nodes.set id.index none, free_ids := t0.free_ids ++ [id] } : Tree T) = T1
    at hT1len hT1slot hT1other ⊢
  have hT1free : T1.free_ids = t0.free_ids ++ [id] := by rw [← hT1]
  have hT1root : T1.root = t0.root := by rw [← hT1]
  rcases hp : nd.parent with _ | pid
  · refine ⟨T1, ?_, hT1len, hT1free, hT1root, hT1slot, ?_, ?_⟩
    · show (match (match nd.parent with
                   | some pid =>
                     expectOk (modifyNode T1 pid
                       (fun p =>
                         { p with children := p.children.filter (fun c => c ≠ id) }))
                   | none => (.ok T1 : TRes (Tree T))) with
            | .error e => (.error e : TRes (Node T × Tree T))
            | .ok t2 => .ok ({ nd with children := [], parent := none }, t2)) = _
      rw [hp]
    · intro pid pn hpe
      cases hpe
    · intro j hj _
      exact hT1other j hj
  · obtain ⟨hpid, pn, hplive⟩ := hpar pid (by rw [hp]; rfl)
    have hple : getNode T1 pid = .ok pn := (hT1other pid hpid).trans hplive
    have hplt : pid.index < T1.nodes.length := slot_lt_length (getNode_ok_slot hple)
    refine ⟨setNodeAt T1 pid.index
        { pn with children := pn.children.filter (fun c => c ≠ id) },
      ?_, ?_, ?_, ?_, ?_, ?_, ?_⟩
    · show (match (match nd.parent with
                   | some pid' =>
                     expectOk (modifyNode T1 pid'
                       (fun p =>
                         { p with children := p.children.filter (fun c => c ≠ id) }))
                   | none => (.ok T1 : TRes (Tree T))) with
            | .error e => (.error e : TRes (Node T × Tree T))
            | .ok t2 => .ok ({ nd with children := [], parent := none }, t2)) = _
      rw [hp]
      show (match expectOk (modifyNode T1 pid
              (fun p =>
                { p with children := p.children.filter (fun c => c ≠ id) })) with
            | .error e => (.error e : TRes (Node T × Tree T))
            | .ok t2 => .ok ({ nd with children := [], parent := none }, t2)) = _
      rw [modifyNode_ok _ hple]
      rfl
    · rw [setNodeAt_length, hT1len]
    · rw [setNodeAt_free, hT1free]
    · rw [setNodeAt_root, hT1root]
    · rw [slotAt_setNodeAt_ne _ (index_ne (fun he => hpid he.symm))]
      exact hT1slot
    · intro pid' pn' hpe hplive'
      injection hpe with hpe
      subst hpe
      rw [hplive] at hplive'
      injection hplive' with hpne
      subst hpne
      exact getNode_setNodeAt_self _ hplt
    · intro j hj hjp
      have hjpid : j ≠ pid := hjp pid rfl
      rw [getNode_setNodeAt_ne _ (index_ne hjpid)]
      exact hT1other j hj

theorem removeNodeInternal_forward {t : Tree T} {id : NodeId} {nd : Node T}
    (hs : slotAt t id = some (some nd))
    (hpar : ∀ pid ∈ nd.parent, pid ≠ id ∧ ∃ pn, getNode t pid = .ok pn) :
    ∃ r, removeNodeInternal t id = .ok ({ nd with children := [], parent := none }, r) ∧
      r.nodes.length = t.nodes.length ∧
      r.free_ids = t.free_ids ++ [id] ∧
      r.root = (if t.root = some id then none else t.root) ∧
      slotAt r id = some none ∧
      (∀ pid pn, nd.parent = some pid → getNode t pid = .ok pn →
        getNode r pid =
          .ok { pn with children := pn.children.filter (fun c => c ≠ id) }) ∧
      (∀ j : NodeId, j ≠ id → (∀ pid ∈ nd.parent, j ≠ pid) →
        getNode r j = getNode t j) := by
  unfold removeNodeInternal
  by_cases hr : t.root = some id
  · rw [if_pos hr]
    have hs' : slotAt ({ t with root := none } : Tree T) id = some (some nd) := hs
    have hpar' : ∀ pid ∈ nd.parent, pid ≠ id ∧
        ∃ pn, getNode ({ t with root := none } : Tree T) pid = .ok pn := hpar
    obtain ⟨r, heq, hlen, hfree, hroot, hslot, hpcl, hother⟩ :=
      removeNodeInternal_core hs' hpar'
    rw [if_pos hr]
    exact ⟨r, heq, hlen, hfree, hroot, hslot, hpcl, hother⟩
  · rw [if_neg hr]
    obtain ⟨r, heq, hlen, hfree, hroot, hslot, hpcl, hother⟩ :=
      removeNodeInternal_core hs hpar
    rw [if_neg hr]
    exact ⟨r, heq, hlen, hfree, hroot, hslot, hpcl, hother⟩

/-- C10: constructing any of the four traversal producers against an
in-bounds tombstoned handle succeeds (the broken validity check passes), and
the resulting iterator yields the empty sequence because the stale starting
handle is dropped at the first `next` call. -/
theorem c10_stale_start_constructs_ok_and_yields_empty {T : Type}
    (t : Tree T) (h : NodeId) (hts : slotAt t h = some none) :
    Tree.ancestors t h = .ok (some h) ∧
    Tree.ancestorIds t h = .ok (some h) ∧
    Tree.traversePreOrder t h = .ok [h] ∧
    Tree.traversePreOrderIds t h = .ok [h] ∧
    AncestorsYields t (some h) [] ∧
    AncestorIdsYields t (some h) [] ∧
    PreNodesYields t [h] [] ∧
    PreIdsYields t [h] [] := by
  have hv := isValidNodeId_ok_of_slot hts
  have hg := getNode_of_slot_tombstone hts
  refine ⟨?_, ?_, ?_, ?_, ?_, ?_, ?_, ?_⟩
  · rw [Tree.ancestors, hv]
  · rw [Tree.ancestorIds, hv]
  · rw [Tree.traversePreOrder, hv]
  · rw [Tree.traversePreOrderIds, hv]
  · exact .done (by rw [ancestorsStep, hg]; rfl)
  · exact .done (by rw [ancestorIdsStep, hg]; rfl)
  · exact .done (by rw [preOrderStep, hg]; rfl)
  · exact .done (by rw [preOrderIdsStep, hg]; rfl)

/-- Witness for C10 at a concrete tree: slot 1 of `removedPairTree` is an
in-bounds tombstone. -/
theorem c10_witness :
    slotAt removedPairTree ⟨1⟩ = some none ∧
    (Tree.ancestors removedPairTree ⟨1⟩ = .ok (some ⟨1⟩) ∧
     Tree.ancestorIds removedPairTree ⟨1⟩ = .ok (some ⟨1⟩) ∧
     Tree.traversePreOrder removedPairTree ⟨1⟩ = .ok [⟨1⟩] ∧
     Tree.traversePreOrderIds removedPairTree ⟨1⟩ = .ok [⟨1⟩] ∧
     AncestorsYields removedPairTree (some ⟨1⟩) [] ∧
     AncestorIdsYields removedPairTree (some ⟨1⟩) [] ∧
     PreNodesYields removedPairTree [⟨1⟩] [] ∧
     PreIdsYields removedPairTree [⟨1⟩] []) :=
  ⟨rfl, c10_stale_start_constructs_ok_and_yields_empty removedPairTree ⟨1⟩ rfl⟩

theorem expectOk_of_ok {α} {e : TRes α} {a : α} (h : e = .ok a) :
    expectOk e = .ok a := by
  rw [h]
  rfl

theorem lift_fold_inv {p : NodeId} :
    ∀ (cs : List NodeId) (tk r : Tree T) (pn : Node T),
    cs.foldlM (fun acc c => setAsParentAndChild acc p c) tk = .ok r →
    getNode tk p = .ok pn →
    (∀ c ∈ cs, c ≠ p) →
    getNode r p = .ok { pn with children := pn.children ++ cs } ∧
    (∀ c ∈ cs, ∃ cn, getNode r c = .ok cn ∧ cn.parent = some p) ∧
    (∀ j : NodeId, j ≠ p → (∀ c ∈ cs, j ≠ c) → getNode r j = getNode tk j) ∧
    r.nodes.length = tk.nodes.length ∧ r.free_ids = tk.free_ids ∧
    r.root = tk.root := by
  intro cs
  induction cs with
  | nil =>
    intro tk r pn hf hp _
    rw [List.foldlM_nil] at hf
    injection hf with hf
    subst hf
    refine ⟨?_, ?_, fun j _ _ => rfl, rfl, rfl, rfl⟩
    · rw [List.append_nil]
      exact hp
    · intro c hm
      cases hm
  | cons c cs ih =>
    intro tk r pn hf hp hcp
    have hcnep : c ≠ p := hcp c (List.mem_cons_self c cs)
    rw [List.foldlM_cons] at hf
    obtain ⟨t2, hstep, hrest⟩ := bind_ok_inv hf
    obtain ⟨pn', cn, hp', hc, ht2⟩ := setAsParentAndChild_ok_inv hstep
    rw [hp] at hp'
    injection hp' with hp'
    subst hp'
    subst ht2
    have hplt : p.index < tk.nodes.length := slot_lt_length (getNode_ok_slot hp)
    have hclt : c.index <
        (setNodeAt tk p.index
          { pn with children := pn.children ++ [c] }).nodes.length :=
      slot_lt_length (getNode_ok_slot hc)
    have hpt2 : getNode
        (setNodeAt (setNodeAt tk p.index { pn with children := pn.children ++ [c] })
          c.index { cn with parent := some p }) p =
        .ok { pn with children := pn.children ++ [c] } := by
      rw [getNode_setNodeAt_ne _ (index_ne (fun he => hcnep he.symm))]
      exact getNode_setNodeAt_self _ hplt
    obtain ⟨ihp, ihc, ihframe, ihlen, ihfree, ihroot⟩ :=
      ih _ r _ hrest hpt2 (fun c' hm => hcp c' (List.mem_cons_of_mem c hm))
    refine ⟨?_, ?_, ?_, ?_, ?_, ?_⟩
    · simpa using ihp
    · intro c' hm
      rcases List.mem_cons.mp hm with he | hm2
      · subst he
        by_cases hmem : c' ∈ cs
        · exact ihc c' hmem
        · refine ⟨{ cn with parent := some p }, ?_, rfl⟩
          rw [ihframe c' hcnep (fun c'' hm'' he' => hmem (by rw [he']; exact hm''))]
          exact getNode_setNodeAt_self _ hclt
      · exact ihc c' hm2
    · intro j hjp hjcs
      rw [ihframe j hjp (fun c' hm => hjcs c' (List.mem_cons_of_mem c hm))]
      rw [getNode_setNodeAt_ne _ (index_ne (hjcs c (List.mem_cons_self c cs)))]
      exact getNode_setNodeAt_ne _ (index_ne hjp)
    · rw [ihlen, setNodeAt_length, setNodeAt_length]
    · rw [ihfree, setNodeAt_free, setNodeAt_free]
    · rw [ihroot, setNodeAt_root, setNodeAt_root]

theorem clear_fold_inv :
    ∀ (cs : List NodeId) (tk r : Tree T),
    cs.foldlM (fun acc c => setParentOf acc c none) tk = .ok r →
    (∀ c ∈ cs, ∃ cn, getNode r c = .ok cn ∧ cn.parent = none) ∧
    (∀ j : NodeId, (∀ c ∈ cs, j ≠ c) → getNode r j = getNode tk j) ∧
    r.nodes.length = tk.nodes.length ∧ r.free_ids = tk.free_ids ∧
    r.root = tk.root := by
  intro cs
  induction cs with
  | nil =>
    intro tk r hf
    rw [List.foldlM_nil] at hf
    injection hf with hf
    subst hf
    exact ⟨fun c hm => (by cases hm), fun j _ => rfl, rfl, rfl, rfl⟩
  | cons c cs ih =>
    intro tk r hf
    rw [List.foldlM_cons] at hf
    obtain ⟨t2, hstep, hrest⟩ := bind_ok_inv hf
    unfold setParentOf at hstep
    obtain ⟨cn, hcn, ht2⟩ := modifyNode_ok_inv (expectOk_ok_inv hstep)
    subst ht2
    obtain ⟨ihc, ihframe, ihlen, ihfree, ihroot⟩ := ih _ r hrest
    have hclt : c.index < tk.nodes.length := slot_lt_length (getNode_ok_slot hcn)
    refine ⟨?_, ?_, ?_, ?_, ?_⟩
    · intro c' hm
      rcases List.mem_cons.mp hm with he | hm2
      · subst he
        by_cases hmem : c' ∈ cs
        · exact ihc c' hmem
        · refine ⟨{ cn with parent := none }, ?_, rfl⟩
          rw [ihframe c' (fun c'' hm'' he' => hmem (by rw [he']; exact hm''))]
          exact getNode_setNodeAt_self _ hclt
      · exact ihc c' hm2
    · intro j hj
      rw [ihframe j (fun c' hm => hj c' (List.mem_cons_of_mem c hm))]
      exact getNode_setNodeAt_ne _ (index_ne (hj c (List.mem_cons_self c cs)))
    · rw [ihlen, setNodeAt_length]
    · rw [ihfree, setNodeAt_free]
    · rw [ihroot, setNodeAt_root]

theorem removeNodeLiftChildren_parent {t : Tree T} {h : NodeId} {nh : Node T}
    {p : NodeId} (hh : getNode t h = .ok nh) (hp : nh.parent = some p) :
    removeNodeLiftChildren t h =
      match nh.children.foldlM (fun acc c => setAsParentAndChild acc p c) t with
      | .error e => .error e
      | .ok t1 => removeNodeInternal t1 h := by
  unfold removeNodeLiftChildren
  rw [expectOk_of_ok hh]
  show ((match nh.parent with
        | some parentId =>
          match (Except.ok nh : TRes (Node T)) with
          | .error e => .error e
          | .ok nd2 =>
            match nd2.children.foldlM
                (fun acc c => setAsParentAndChild acc parentId c) t with
            | .error e => (.error e : TRes (Node T × Tree T))
            | .ok t1 => removeNodeInternal t1 h
        | none =>
          match setParentOfChildren t h none with
          | .error e => .error e
          | .ok t1 => removeNodeInternal t1 h) : TRes (Node T × Tree T)) = _
  rw [hp]

theorem removeNodeLiftChildren_no_parent {t : Tree T} {h : NodeId} {nh : Node T}
    (hh : getNode t h = .ok nh) (hp : nh.parent = none) :
    removeNodeLiftChildren t h = removeNodeOrphanChildren t h := by
  unfold removeNodeLiftChildren removeNodeOrphanChildren
  rw [expectOk_of_ok hh]
  show ((match nh.parent with
        | some parentId =>
          match (Except.ok nh : TRes (Node T)) with
          | .error e => .error e
          | .ok nd2 =>
            match nd2.children.foldlM
                (fun acc c => setAsParentAndChild acc parentId c) t with
            | .error e => (.error e : TRes (Node T × Tree T))
            | .ok t1 => removeNodeInternal t1 h
        | none =>
          match setParentOfChildren t h none with
          | .error e => .error e
          | .ok t1 => removeNodeInternal t1 h) : TRes (Node T × Tree T)) = _
  rw [hp]

theorem removeNode_lift_eq {t : Tree T} {h : NodeId} (fuel : Nat)
    (hv : isValidNodeId t h = .ok ()) :
    Tree.removeNode fuel t h .liftChildren = removeNodeLiftChildren t h := by
  unfold Tree.removeNode
  rw [hv]

theorem removeNode_orphan_eq {t : Tree T} {h : NodeId} (fuel : Nat)
    (hv : isValidNodeId t h = .ok ()) :
    Tree.removeNode fuel t h .orphanChildren = removeNodeOrphanChildren t h := by
  unfold Tree.removeNode
  rw [hv]

/-- C6: removing a live node `h` with `LiftChildren` tombstones `h`'s slot and
returns `h`'s node with its links cleared.  When `h` has a live parent `p`
(with `p`, `h`, and `h`'s children pairwise distinct handles), each direct
child of `h` is re-parented to `p` and the whole child list of `h` is appended,
in order, at the end of `p`'s children (from which `h` itself is dropped).
When `h` has no parent, the call is literally the same computation as
`remove_node(h, OrphanChildren)`, and each child's parent is cleared while the
children stay live. -/
theorem c6_lift_children_semantics {fuel : Nat} {t : Tree T} {h : NodeId}
    {nh nd : Node T} {r : Tree T}
    (hh : getNode t h = .ok nh)
    (hch : ∀ c ∈ nh.children, c ≠ h)
    (hrm : Tree.removeNode fuel t h .liftChildren = .ok (nd, r)) :
    (∀ p pn, nh.parent = some p → getNode t p = .ok pn → p ≠ h →
      (∀ c ∈ nh.children, c ≠ p) →
      nd = { nh with parent := none, children := [] } ∧
      slotAt r h = some none ∧
      childrenAt r p =
        .ok (pn.children.filter (fun c => c ≠ h) ++ nh.children) ∧
      (∀ c ∈ nh.children, parentAt r c = .ok (some p))) ∧
    (nh.parent = none →
      Tree.removeNode fuel t h .liftChildren =
        Tree.removeNode fuel t h .orphanChildren ∧
      nd = { nh with parent := none, children := [] } ∧
      slotAt r h = some none ∧
      (∀ c ∈ nh.children, parentAt r c = .ok none)) := by
  have hv := isValidNodeId_of_getNode_ok hh
  constructor
  · intro p pn hpar hplive hph hcp
    rw [removeNode_lift_eq fuel hv, removeNodeLiftChildren_parent hh hpar] at hrm
    split at hrm
    · cases hrm
    · next t1 hfold =>
      obtain ⟨hrp, hrc, hrframe, hrlen, hrfree, hrroot⟩ :=
        lift_fold_inv nh.children t t1 pn hfold hplive hcp
      have hgh1 : getNode t1 h = .ok nh := by
        rw [hrframe h (fun he => hph he.symm) (fun c hm he => (hch c hm) he.symm)]
        exact hh
      have hpar1 : ∀ pid ∈ nh.parent, pid ≠ h ∧ ∃ pn', getNode t1 pid = .ok pn' := by
        intro pid hm
        rw [hpar] at hm
        have hpe := Option.mem_some_iff.mp hm
        subst hpe
        exact ⟨hph, ⟨_, hrp⟩⟩
      obtain ⟨r', heq, hlen', hfree', hroot', hslot', hpcl', hother'⟩ :=
        removeNodeInternal_forward (getNode_ok_slot hgh1) hpar1
      rw [heq] at hrm
      injection hrm with hrm
      injection hrm with hnd hr
      subst hnd
      subst hr
      refine ⟨rfl, hslot', ?_, ?_⟩
      · have hpr := hpcl' p { pn with children := pn.children ++ nh.children } hpar hrp
        show (getNode r' p).map Node.children = _
        rw [hpr]
        show Except.ok ((pn.children ++ nh.children).filter (fun c => c ≠ h)) = _
        rw [List.filter_append]
        have hself : nh.children.filter (fun c => c ≠ h) = nh.children := by
          rw [List.filter_eq_self]
          intro a hm
          exact decide_eq_true (hch a hm)
        rw [hself]
      · intro c hm
        have hcr : getNode r' c = getNode t1 c := by
          refine hother' c (hch c hm) ?_
          intro pid hpidm
          rw [hpar] at hpidm
          have hpe := Option.mem_some_iff.mp hpidm
          rw [← hpe]
          exact hcp c hm
        obtain ⟨cn, hgc, hcpn⟩ := hrc c hm
        show (getNode r' c).map Node.parent = _
        rw [hcr, hgc]
        show Except.ok cn.parent = _
        rw [hcpn]
  · intro hpar
    have hlo := removeNodeLiftChildren_no_parent hh hpar
    have heqop : Tree.removeNode fuel t h .liftChildren =
        Tree.removeNode fuel t h .orphanChildren :=
      (removeNode_lift_eq fuel hv).trans
        (hlo.trans (removeNode_orphan_eq fuel hv).symm)
    rw [removeNode_lift_eq fuel hv, hlo] at hrm
    unfold removeNodeOrphanChildren at hrm
    split at hrm
    · cases hrm
    · next t1 hspc =>
      unfold setParentOfChildren at hspc
      rw [expectOk_of_ok hh] at hspc
      have hspc2 : nh.children.foldlM (fun acc c => setParentOf acc c none) t =
          .ok t1 := hspc
      obtain ⟨hc1, hframe1, hlen1, hfree1, hroot1⟩ :=
        clear_fold_inv nh.children t t1 hspc2
      have hgh1 : getNode t1 h = .ok nh := by
        rw [hframe1 h (fun c hm he => (hch c hm) he.symm)]
        exact hh
      have hpar1 : ∀ pid ∈ nh.parent, pid ≠ h ∧ ∃ pn', getNode t1 pid = .ok pn' := by
        intro pid hm
        rw [hpar] at hm
        cases hm
      obtain ⟨r', heq, hlen', hfree', hroot', hslot', hpcl', hother'⟩ :=
        removeNodeInternal_forward (getNode_ok_slot hgh1) hpar1
      rw [heq] at hrm
      injection hrm with hrm
      injection hrm with hnd hr
      subst hnd
      subst hr
      refine ⟨heqop, rfl, hslot', ?_⟩
      intro c hm
      have hcr : getNode r' c = getNode t1 c := by
        refine hother' c (hch c hm) ?_
        intro pid hpidm
        rw [hpar] at hpidm
        cases hpidm
      obtain ⟨cn, hgc, hcpn⟩ := hc1 c hm
      show (getNode r' c).map Node.parent = _
      rw [hcr, hgc]
      show Except.ok cn.parent = _
      rw [hcpn]

theorem parentAt_root_update (t : Tree T) (rr : Option NodeId) (j : NodeId) :
    parentAt { t with root := rr } j = parentAt t j := rfl

theorem childrenAt_root_update (t : Tree T) (rr : Option NodeId) (j : NodeId) :
    childrenAt { t with root := rr } j = childrenAt t j := rfl

theorem sapc_fields {t1 r : Tree T} {p c : NodeId}
    (hsp : setAsParentAndChild t1 p c = .ok r) (hcp : c ≠ p) :
    parentAt r c = .ok (some p) ∧
    (∃ pn, getNode t1 p = .ok pn ∧ childrenAt r p = .ok (pn.children ++ [c])) ∧
    (∀ j : NodeId, j ≠ c → parentAt r j = parentAt t1 j) ∧
    (∀ j : NodeId, j ≠ p → childrenAt r j = childrenAt t1 j) ∧
    (∀ j : NodeId, j ≠ p → j ≠ c → getNode r j = getNode t1 j) ∧
    r.root = t1.root ∧ r.nodes.length = t1.nodes.length ∧
    r.free_ids = t1.free_ids := by
  obtain ⟨pn, cn, hp, hc, ht⟩ := setAsParentAndChild_ok_inv hsp
  subst ht
  have hplt : p.index < t1.nodes.length := slot_lt_length (getNode_ok_slot hp)
  have hclt : c.index <
      (setNodeAt t1 p.index
        { pn with children := pn.children ++ [c] }).nodes.length :=
    slot_lt_length (getNode_ok_slot hc)
  have hc1 : getNode t1 c = .ok cn :=
    (getNode_setNodeAt_ne _ (index_ne hcp)).symm.trans hc
  refine ⟨?_, ⟨pn, hp, ?_⟩, ?_, ?_, ?_, by simp, by simp, by simp⟩
  · show (getNode _ c).map Node.parent = _
    rw [getNode_setNodeAt_self _ hclt]
    rfl
  · show (getNode _ p).map Node.children = _
    rw [getNode_setNodeAt_ne _ (index_ne (fun he => hcp he.symm)),
        getNode_setNodeAt_self _ hplt]
    rfl
  · intro j hj
    show (getNode _ j).map Node.parent = (getNode t1 j).map Node.parent
    rw [getNode_setNodeAt_ne _ (index_ne hj)]
    by_cases hjp : j = p
    · subst hjp
      rw [getNode_setNodeAt_self _ hplt, hp]
      rfl
    · rw [getNode_setNodeAt_ne _ (index_ne hjp)]
  · intro j hj
    show (getNode _ j).map Node.children = (getNode t1 j).map Node.children
    by_cases hjc : j = c
    · subst hjc
      rw [getNode_setNodeAt_self _ hclt, hc1]
      rfl
    · rw [getNode_setNodeAt_ne _ (index_ne hjc),
          getNode_setNodeAt_ne _ (index_ne hj)]
  · intro j hjp hjc
    rw [getNode_setNodeAt_ne _ (index_ne hjc)]
    exact getNode_setNodeAt_ne _ (index_ne hjp)

theorem detach_fields {t1 r : Tree T} {p c : NodeId}
    (hd : detachFromParent t1 p c = .ok r) :
    (∃ pn, getNode t1 p = .ok pn ∧
      childrenAt r p = .ok (pn.children.filter (fun x => x ≠ c))) ∧
    (∀ j : NodeId, parentAt r j = parentAt t1 j) ∧
    (∀ j : NodeId, j ≠ p → getNode r j = getNode t1 j) ∧
    r.root = t1.root ∧ r.nodes.length = t1.nodes.length ∧
    r.free_ids = t1.free_ids := by
  unfold detachFromParent at hd
  obtain ⟨pn, hp, ht⟩ := modifyNode_ok_inv (expectOk_ok_inv hd)
  subst ht
  have hplt : p.index < t1.nodes.length := slot_lt_length (getNode_ok_slot hp)
  refine ⟨⟨pn, hp, ?_⟩, ?_, ?_, by simp, by simp, by simp⟩
  · show (getNode _ p).map Node.children = _
    rw [getNode_setNodeAt_self _ hplt]
    rfl
  · intro j
    show (getNode _ j).map Node.parent = (getNode t1 j).map Node.parent
    by_cases hjp : j = p
    · subst hjp
      rw [getNode_setNodeAt_self _ hplt, hp]
      rfl
    · rw [getNode_setNodeAt_ne _ (index_ne hjp)]
  · intro j hjp
    exact getNode_setNodeAt_ne _ (index_ne hjp)

theorem setParentOf_fields {t1 r : Tree T} {c : NodeId} {v : Option NodeId}
    (hd : setParentOf t1 c v = .ok r) :
    parentAt r c = .ok v ∧
    (∀ j : NodeId, childrenAt r j = childrenAt t1 j) ∧
    (∀ j : NodeId, j ≠ c → getNode r j = getNode t1 j) ∧
    r.root = t1.root ∧ r.nodes.length = t1.nodes.length ∧
    r.free_ids = t1.free_ids := by
  unfold setParentOf at hd
  obtain ⟨cn, hcg, ht⟩ := modifyNode_ok_inv (expectOk_ok_inv hd)
  subst ht
  have hclt : c.index < t1.nodes.length := slot_lt_length (getNode_ok_slot hcg)
  refine ⟨?_, ?_, ?_, by simp, by simp, by simp⟩
  · show (getNode _ c).map Node.parent = _
    rw [getNode_setNodeAt_self _ hclt]
    rfl
  · intro j
    show (getNode _ j).map Node.children = (getNode t1 j).map Node.children
    by_cases hjc : j = c
    · subst hjc
      rw [getNode_setNodeAt_self _ hclt, hcg]
      rfl
    · rw [getNode_setNodeAt_ne _ (index_ne hjc)]
  · intro j hjc
    exact getNode_setNodeAt_ne _ (index_ne hjc)

theorem findSubtree_some_parent :
    ∀ (fuel : Nat) (t : Tree T) (lo up s : NodeId),
    findSubtreeRootBetweenIds fuel t lo up = .ok (some s) →
    ∃ sn, getNode t s = .ok sn ∧ sn.parent = some up := by
  intro fuel
  induction fuel with
  | zero => intro t lo up s hf; cases hf
  | succ fuel ih =>
    intro t lo up s hf
    rw [findSubtreeRootBetweenIds] at hf
    split at hf
    · cases hf
    · next nd heq =>
      split at hf
      · next lowerParent hpar =>
        split at hf
        · next heq2 =>
          injection hf with hf
          injection hf with hf
          subst hf
          refine ⟨nd, expectOk_ok_inv heq, ?_⟩
          rw [hpar, heq2]
        · exact ih t lowerParent up s hf
      · injection hf with hf
        cases hf

theorem moveNode_toParent_eq {fuel : Nat} {t : Tree T} {h np : NodeId}
    (hv : isValidNodeId t h = .ok ()) :
    Tree.moveNode fuel t h (.toParent np) = moveNodeToParent fuel t h np := by
  unfold Tree.moveNode
  rw [hv]

theorem moveNodeToParent_down {fuel : Nat} {t : Tree T} {h np s : NodeId}
    (hfind : findSubtreeRootBetweenIds fuel t np h = .ok (some s)) :
    moveNodeToParent fuel t h np =
      match ((if t.root = some h then
            match detachFromParent t h s with
            | .error e => .error e
            | .ok ta =>
              match setParentOf ta s none with
              | .error e => .error e
              | .ok tb => .ok { tb with root := some s }
          else
            match expectOk (getNode t h) with
            | .error e => .error e
            | .ok nd =>
              match nd.parent with
              | some oldParent =>
                match detachFromParent t oldParent h with
                | .error e => .error e
                | .ok ta =>
                  match setAsParentAndChild ta oldParent s with
                  | .error e => .error e
                  | .ok tb => detachFromParent tb h s
              | none =>
                match setParentOf t s none with
                | .error e => .error e
                | .ok ta => detachFromParent ta h s) : TRes (Tree T)) with
      | .error e => .error e
      | .ok t1 => setAsParentAndChild t1 np h := by
  unfold moveNodeToParent
  rw [hfind]

/-- C4: when `find_subtree_root_between_ids(np, h)` finds a subtree root `s`
(so `np` lies in `h`'s subtree along parent links and `s` is the direct child
of `h` on that path), `move_node(h, ToParent(np))` detaches `s` from `h`'s
children (all other children stay), makes `h` the last child of `np`, and
re-attaches `s` in `h`'s former position: as the new tree root when `h` was
the root, parentless when `h` had no parent, and as the last child of `h`'s
old parent `op` otherwise (with `h` dropped from `op`'s children). -/
theorem c4_move_down_semantics {fuel : Nat} {t : Tree T} {h np s : NodeId}
    {nh : Node T} {r : Tree T}
    (hh : getNode t h = .ok nh)
    (hfind : findSubtreeRootBetweenIds fuel t np h = .ok (some s))
    (hsh : s ≠ h) (hnph : np ≠ h)
    (hmv : Tree.moveNode fuel t h (.toParent np) = .ok r) :
    (∃ sn, getNode t s = .ok sn ∧ sn.parent = some h) ∧
    (t.root = some h →
      childrenAt r h = .ok (nh.children.filter (fun c => c ≠ s)) ∧
      parentAt r h = .ok (some np) ∧
      (∃ l, childrenAt r np = .ok (l ++ [h])) ∧
      r.root = some s ∧
      parentAt r s = .ok none) ∧
    (t.root ≠ some h → nh.parent = none →
      childrenAt r h = .ok (nh.children.filter (fun c => c ≠ s)) ∧
      parentAt r h = .ok (some np) ∧
      (∃ l, childrenAt r np = .ok (l ++ [h])) ∧
      parentAt r s = .ok none) ∧
    (∀ op opn, t.root ≠ some h → nh.parent = some op →
      getNode t op = .ok opn → op ≠ h → op ≠ s → op ≠ np →
      childrenAt r h = .ok (nh.children.filter (fun c => c ≠ s)) ∧
      parentAt r h = .ok (some np) ∧
      (∃ l, childrenAt r np = .ok (l ++ [h])) ∧
      parentAt r s = .ok (some op) ∧
      childrenAt r op = .ok (opn.children.filter (fun c => c ≠ h) ++ [s])) := by
  have hv := isValidNodeId_of_getNode_ok hh
  refine ⟨findSubtree_some_parent fuel t np h s hfind, ?_, ?_, ?_⟩
  · intro hroot
    rw [moveNode_toParent_eq hv, moveNodeToParent_down hfind, if_pos hroot] at hmv
    rcases hd : detachFromParent t h s with e | ta
    · rw [hd] at hmv
      have hx : (Except.error e : TRes (Tree T)) = .ok r := hmv
      cases hx
    · rw [hd] at hmv
      have hmv2 : (match (match setParentOf ta s none with
                          | .error e => (.error e : TRes (Tree T))
                          | .ok tb => .ok { tb with root := some s }) with
                   | .error e => (.error e : TRes (Tree T))
                   | .ok t1 => setAsParentAndChild t1 np h) = .ok r := hmv
      rcases hsp : setParentOf ta s none with e | tb
      · rw [hsp] at hmv2
        have hx : (Except.error e : TRes (Tree T)) = .ok r := hmv2
        cases hx
      · rw [hsp] at hmv2
        have hsc : setAsParentAndChild { tb with root := some s } np h = .ok r := hmv2
        obtain ⟨⟨pnd, hpnd, hdch⟩, hdpar, hdfr, _, _, _⟩ := detach_fields hd
        rw [hh] at hpnd
        injection hpnd with he1
        subst he1
        obtain ⟨hspp, hspch, hspfr, _, _, _⟩ := setParentOf_fields hsp
        obtain ⟨hs2parc, ⟨pn2, hpn2, hs2ch⟩, hs2par, hs2chAll, hs2fr, hs2root, _, _⟩ :=
          sapc_fields hsc (fun he => hnph he.symm)
        refine ⟨?_, hs2parc, ⟨pn2.children, hs2ch⟩, ?_, ?_⟩
        · rw [hs2chAll h (fun he => hnph he.symm), childrenAt_root_update, hspch h]
          exact hdch
        · rw [hs2root]
        · rw [hs2par s hsh, parentAt_root_update]
          exact hspp
  · intro hroot hpnone
    rw [moveNode_toParent_eq hv, moveNodeToParent_down hfind, if_neg hroot,
        expectOk_of_ok hh] at hmv
    have hmv2 : (match (match nh.parent with
         | some oldParent =>
           match detachFromParent t oldParent h with
           | .error e => (.error e : TRes (Tree T))
           | .ok ta =>
             match setAsParentAndChild ta oldParent s with
             | .error e => .error e
             | .ok tb => detachFromParent tb h s
         | none =>
           match setParentOf t s none with
           | .error e => .error e
           | .ok ta => detachFromParent ta h s) with
       | .error e => (.error e : TRes (Tree T))
       | .ok t1 => setAsParentAndChild t1 np h) = .ok r := hmv
    rw [hpnone] at hmv2
    have hmv3 : (match (match setParentOf t s none with
         | .error e => (.error e : TRes (Tree T))
         | .ok ta => detachFromParent ta h s) with
       | .error e => (.error e : TRes (Tree T))
       | .ok t1 => setAsParentAndChild t1 np h) = .ok r := hmv2
    rcases hsp : setParentOf t s none with e | ta
    · rw [hsp] at hmv3
      have hx : (Except.error e : TRes (Tree T)) = .ok r := hmv3
      cases hx
    · rw [hsp] at hmv3
      have hmv4 : (match detachFromParent ta h s with
           | .error e => (.error e : TRes (Tree T))
           | .ok t1 => setAsParentAndChild t1 np h) = .ok r := hmv3
      rcases hd : detachFromParent ta h s with e | t1
      · rw [hd] at hmv4
        have hx : (Except.error e : TRes (Tree T)) = .ok r := hmv4
        cases hx
      · rw [hd] at hmv4
        have hsc : setAsParentAndChild t1 np h = .ok r := hmv4
        obtain ⟨hspp, hspch, hspfr, _, _, _⟩ := setParentOf_fields hsp
        obtain ⟨⟨pnd, hpnd, hdch⟩, hdpar, hdfr, _, _, _⟩ := detach_fields hd
        have hga : getNode ta h = .ok nh := by
          rw [hspfr h (fun he => hsh he.symm)]
          exact hh
        rw [hga] at hpnd
        injection hpnd with he1
        subst he1
        obtain ⟨hs2parc, ⟨pn2, hpn2, hs2ch⟩, hs2par, hs2chAll, hs2fr, _, _, _⟩ :=
          sapc_fields hsc (fun he => hnph he.symm)
        refine ⟨?_, hs2parc, ⟨pn2.children, hs2ch⟩, ?_⟩
        · rw [hs2chAll h (fun he => hnph he.symm)]
          exact hdch
        · rw [hs2par s hsh, hdpar s]
          exact hspp
  · intro op opn hroot hpsome hop hoph hops hopnp
    rw [moveNode_toParent_eq hv, moveNodeToParent_down hfind, if_neg hroot,
        expectOk_of_ok hh] at hmv
    have hmv2 : (match (match nh.parent with
         | some oldParent =>
           match detachFromParent t oldParent h with
           | .error e => (.error e : TRes (Tree T))
           | .ok ta =>
             match setAsParentAndChild ta oldParent s with
             | .error e => .error e
             | .ok tb => detachFromParent tb h s
         | none =>
           match setParentOf t s none with
           | .error e => .error e
           | .ok ta => detachFromParent ta h s) with
       | .error e => (.error e : TRes (Tree T))
       | .ok t1 => setAsParentAndChild t1 np h) = .ok r := hmv
    rw [hpsome] at hmv2
    have hmv3 : (match (match detachFromParent t op h with
         | .error e => (.error e : TRes (Tree T))
         | .ok ta =>
           match setAsParentAndChild ta op s with
           | .error e => .error e
           | .ok tb => detachFromParent tb h s) with
       | .error e => (.error e : TRes (Tree T))
       | .ok t1 => setAsParentAndChild t1 np h) = .ok r := hmv2
    rcases hd1 : detachFromParent t op h with e | ta
    · rw [hd1] at hmv3
      have hx : (Except.error e : TRes (Tree T)) = .ok r := hmv3
      cases hx
    · rw [hd1] at hmv3
      have hmv4 : (match (match setAsParentAndChild ta op s with
           | .error e => (.error e : TRes (Tree T))
           | .ok tb => detachFromParent tb h s) with
         | .error e => (.error e : TRes (Tree T))
         | .ok t1 => setAsParentAndChild t1 np h) = .ok r := hmv3
      rcases hs1 : setAsParentAndChild ta op s with e | tb
      · rw [hs1] at hmv4
        have hx : (Except.error e : TRes (Tree T)) = .ok r := hmv4
        cases hx
      · rw [hs1] at hmv4
        have hmv5 : (match detachFromParent tb h s with
             | .error e => (.error e : TRes (Tree T))
             | .ok t1 => setAsParentAndChild t1 np h) = .ok r := hmv4
        rcases hd2 : detachFromParent tb h s with e | t1
        · rw [hd2] at hmv5
          have hx : (Except.error e : TRes (Tree T)) = .ok r := hmv5
          cases hx
        · rw [hd2] at hmv5
          have hsc : setAsParentAndChild t1 np h = .ok r := hmv5
          obtain ⟨⟨opnd, hopnd, hopch⟩, hd1par, hd1fr, _, _, _⟩ := detach_fields hd1
          rw [hop] at hopnd
          injection hopnd with he1
          subst he1
          obtain ⟨hs1parc, ⟨pn1, hpn1, hs1ch⟩, hs1par, hs1chAll, hs1fr, _, _, _⟩ :=
            sapc_fields hs1 (fun he => hops he.symm)
          have h2 : childrenAt ta op = .ok pn1.children := by
            show (getNode ta op).map Node.children = _
            rw [hpn1]
            rfl
          have h3 := h2.symm.trans hopch
          injection h3 with h3
          rw [h3] at hs1ch
          obtain ⟨⟨hnd2, hhnd2, hd2ch⟩, hd2par, hd2fr, _, _, _⟩ := detach_fields hd2
          have hgb : getNode tb h = .ok nh := by
            rw [hs1fr h (fun he => hoph he.symm) (fun he => hsh he.symm)]
            rw [hd1fr h (fun he => hoph he.symm)]
            exact hh
          rw [hgb] at hhnd2
          injection hhnd2 with he2
          subst he2
          obtain ⟨hs2parc, ⟨pn2, hpn2, hs2ch⟩, hs2par, hs2chAll, hs2fr, _, _, _⟩ :=
            sapc_fields hsc (fun he => hnph he.symm)
          refine ⟨?_, hs2parc, ⟨pn2.children, hs2ch⟩, ?_, ?_⟩
          · rw [hs2chAll h (fun he => hnph he.symm)]
            exact hd2ch
          · rw [hs2par s hsh, hd2par s]
            exact hs1parc
          · rw [hs2chAll op hopnp]
            have h4 : childrenAt t1 op = childrenAt tb op := by
              show (getNode t1 op).map Node.children = _
              rw [hd2fr op hoph]
              rfl
            rw [h4]
            exact hs1ch

/-- Witness for C4 at `chainTree`, covering both re-attachment cases: moving
node 1 under its child 2 (old parent 0 adopts subtree root 2), and moving the
root 0 under node 3 (subtree root 1 becomes the new tree root). -/
theorem c4_witness :
    (∃ sn, getNode chainTree ⟨2⟩ = .ok sn ∧ sn.parent = some (⟨1⟩ : NodeId)) ∧
    (childrenAt movedDownChainTree ⟨1⟩ = .ok [⟨3⟩] ∧
     parentAt movedDownChainTree ⟨1⟩ = .ok (some ⟨2⟩) ∧
     (∃ l, childrenAt movedDownChainTree ⟨2⟩ = .ok (l ++ [⟨1⟩])) ∧
     parentAt movedDownChainTree ⟨2⟩ = .ok (some ⟨0⟩) ∧
     childrenAt movedDownChainTree ⟨0⟩ = .ok [⟨2⟩]) ∧
    (childrenAt rootMovedChainTree ⟨0⟩ = .ok [] ∧
     parentAt rootMovedChainTree ⟨0⟩ = .ok (some ⟨3⟩) ∧
     (∃ l, childrenAt rootMovedChainTree ⟨3⟩ = .ok (l ++ [⟨0⟩])) ∧
     rootMovedChainTree.root = some ⟨1⟩ ∧
     parentAt rootMovedChainTree ⟨1⟩ = .ok none) :=
  have A := c4_move_down_semantics
    (show getNode chainTree ⟨1⟩ = .ok ⟨1, some ⟨0⟩, [⟨2⟩, ⟨3⟩]⟩ from rfl)
    (show findSubtreeRootBetweenIds 9 chainTree ⟨2⟩ ⟨1⟩ = .ok (some ⟨2⟩) from rfl)
    (by decide) (by decide)
    (show Tree.moveNode 9 chainTree ⟨1⟩ (.toParent ⟨2⟩) =
        .ok movedDownChainTree from rfl)
  have B := c4_move_down_semantics
    (show getNode chainTree ⟨0⟩ = .ok ⟨0, none, [⟨1⟩]⟩ from rfl)
    (show findSubtreeRootBetweenIds 9 chainTree ⟨3⟩ ⟨0⟩ = .ok (some ⟨1⟩) from rfl)
    (by decide) (by decide)
    (show Tree.moveNode 9 chainTree ⟨0⟩ (.toParent ⟨3⟩) =
        .ok rootMovedChainTree from rfl)
  ⟨A.1,
   A.2.2.2 ⟨0⟩ ⟨0, none, [⟨1⟩]⟩ (by decide) rfl rfl (by decide) (by decide)
     (by decide),
   B.2.1 rfl⟩

/-- Witness for C6 at `chainTree`: removing node 1 (children 2 and 3, parent
the root 0) with `LiftChildren` appends 2 and 3, in order, to the root's
children and clears slot 1. -/
theorem c6_witness :
    Tree.removeNode 9 chainTree ⟨1⟩ .liftChildren =
      .ok (⟨1, none, []⟩, liftedChainTree) ∧
    ((⟨1, none, []⟩ : Node Nat) = { data := 1, parent := none, children := [] } ∧
     slotAt liftedChainTree ⟨1⟩ = some none ∧
     childrenAt liftedChainTree ⟨0⟩ =
       .ok ([⟨1⟩].filter (fun c => c ≠ (⟨1⟩ : NodeId)) ++ [⟨2⟩, ⟨3⟩]) ∧
     (∀ c ∈ [(⟨2⟩ : NodeId), ⟨3⟩],
        parentAt liftedChainTree c = .ok (some ⟨0⟩))) :=
  ⟨rfl,
   (c6_lift_children_semantics
      (show getNode chainTree ⟨1⟩ = .ok ⟨1, some ⟨0⟩, [⟨2⟩, ⟨3⟩]⟩ from rfl)
      (by decide)
      (show Tree.removeNode 9 chainTree ⟨1⟩ .liftChildren =
          .ok (⟨1, none, []⟩, liftedChainTree) from rfl)).1
     ⟨0⟩ ⟨0, none, [⟨1⟩]⟩ rfl rfl (by decide) (by decide)⟩

end Sakura
